import Mathlib

/-!
# ERTP contract utilities and the agency escrow

A shallow embedding of `core/zoe/contractUtils.js`, `core/agencyEscrow.js` and
`core/zoe/contracts/helpers/userFlow.js`, with a model of escrow and settlement
for the two-party swap that the test `simpleOfferSwap` drives.

JavaScript arrays are lists.  A call that may throw returns `Except Thrown _`,
the thrown value being identified by its message.  Reading an array past its
end gives `undefined`; where the source then reads a property of the element
(which throws a `TypeError`) the read is an `Option`, and where the source only
passes the element on, the element type carries an `undefined` of its own
(`JsUndefined`).
-/

namespace Ertp

/-- A value thrown by a JavaScript call (or the reason of a rejected promise),
identified by its message. -/
abbrev Thrown := String

/-- The JavaScript values of sort `α` include `undefined`. -/
class JsUndefined (α : Type) where
  /-- The value `undefined`. -/
  undefined : α

instance instJsUndefinedOption (α : Type) : JsUndefined (Option α) := ⟨none⟩

/-- The read `xs[i]` of an element that is only passed on: `undefined` past the end. -/
def jsGet {α : Type} [JsUndefined α] (xs : List α) (i : Nat) : α :=
  xs.getD i JsUndefined.undefined

/-- The loop of `Array.prototype.every`: the callback gets the element and its
index, may throw, and the loop stops at the first element it rejects. -/
def everyFrom {α : Type} (f : α → Nat → Except Thrown Bool) : List α → Nat → Except Thrown Bool
  | [], _ => .ok true
  | x :: xs, i =>
    match f x i with
    | .error e => .error e
    | .ok false => .ok false
    | .ok true => everyFrom f xs (i + 1)

/-- The call `xs.every(f)`. -/
def every {α : Type} (xs : List α) (f : α → Nat → Except Thrown Bool) : Except Thrown Bool :=
  everyFrom f xs 0

/-- The loop of `Array.prototype.map`: the callback gets the element and its
index and may throw; elements are visited in order and the first throw ends the call. -/
def mapFrom {α β : Type} (f : α → Nat → Except Thrown β) : List α → Nat → Except Thrown (List β)
  | [], _ => .ok []
  | x :: xs, i =>
    match f x i with
    | .error e => .error e
    | .ok y =>
      match mapFrom f xs (i + 1) with
      | .error e => .error e
      | .ok ys => .ok (y :: ys)

/-- The call `xs.map(f)`. -/
def jsMap {α β : Type} (xs : List α) (f : α → Nat → Except Thrown β) : Except Thrown (List β) :=
  mapFrom f xs 0

/-! ## Data model -/

/-- The label of an amount.  The issuer is an object, compared by identity
(its number here); the description plays no part in the functions below. -/
structure Label where
  issuer : Nat
  description : String
  deriving DecidableEq, Repr

/-- An amount `{ label, quantity }`. -/
structure Amount (L Q : Type) where
  label : L
  quantity : Q
  deriving DecidableEq, Repr

/-- One slot of an offer description, `{ rule, amount }`. -/
structure OfferRule (R L Q : Type) where
  rule : R
  amount : Amount L Q
  deriving DecidableEq, Repr

/-- A quantity strategy: the object with `empty`, `with`, `without`, `equals`
and `insistKind` that the utilities are handed for each slot.  `with` and
`without` may throw (overlap, underflow); `insistKind` throws on a quantity
that is not of the strategy's kind and returns otherwise. -/
structure Strategy (Q : Type) where
  empty : Q
  «with» : Q → Q → Except Thrown Q
  without : Q → Q → Except Thrown Q
  equals : Q → Q → Bool
  insistKind : Q → Except Thrown Unit

/-! ## `contractUtils.js` -/

/-- Source: `ruleEqual`, `leftRule.rule === rightRule.rule`. -/
def ruleEqual {R L Q : Type} [DecidableEq R] (leftRule rightRule : OfferRule R L Q) : Bool :=
  decide (leftRule.rule = rightRule.rule)

/-- Source: `quantityEqual`. -/
def quantityEqual {R L Q : Type} (strategy : Strategy Q)
    (leftRule rightRule : OfferRule R L Q) : Bool :=
  strategy.equals leftRule.amount.quantity rightRule.amount.quantity

/-- Source: `issuerEqual`, identity of the two labels' issuers. -/
def issuerEqual {R Q : Type} (leftRule rightRule : OfferRule R Label Q) : Bool :=
  decide (leftRule.amount.label.issuer = rightRule.amount.label.issuer)

/-- The callback of the `every` in `offerEqual`.  The conjunction
short-circuits, so `strategies[i]` is read only once the rule tags and issuers
agree; reading `.rule` of a missing `rightOffer[i]` or `.equals` of a missing
`strategies[i]` throws. -/
def offerEqualSlot {R Q : Type} [DecidableEq R] (strategies : List (Strategy Q))
    (rightOffer : List (OfferRule R Label Q)) (leftRule : OfferRule R Label Q) (i : Nat) :
    Except Thrown Bool :=
  match rightOffer[i]? with
  | none => .error "TypeError: cannot read property rule of undefined"
  | some rightRule =>
    if ruleEqual leftRule rightRule && issuerEqual leftRule rightRule then
      match strategies[i]? with
      | none => .error "TypeError: cannot read property equals of undefined"
      | some strategy => .ok (quantityEqual strategy leftRule rightRule)
    else
      .ok false

/-- Source: `offerEqual`. -/
def offerEqual {R Q : Type} [DecidableEq R] (strategies : List (Strategy Q))
    (leftOffer rightOffer : List (OfferRule R Label Q)) : Except Thrown Bool :=
  let isLengthEqual := decide (leftOffer.length = rightOffer.length)
  if !isLengthEqual then
    .ok false
  else
    every leftOffer (offerEqualSlot strategies rightOffer)

/-- Source: `makeEmptyQuantities`. -/
def makeEmptyQuantities {Q : Type} (strategies : List (Strategy Q)) : List Q :=
  strategies.map fun strategy => strategy.empty

/-- Source: `makeHasOkRules`.  Reading `.rule` of a missing `offer[i]` throws. -/
def makeHasOkRules {R L Q : Type} [DecidableEq R] (validRules : List R)
    (offer : List (OfferRule R L Q)) : Except Thrown Bool :=
  every validRules fun rule i =>
    match offer[i]? with
    | none => .error "TypeError: cannot read property rule of undefined"
    | some offerRule => .ok (decide (rule = offerRule.rule))

/-- Source: `makeAmount`. -/
def makeAmount {L Q : Type} (strategy : Strategy Q) (label : L) (allegedQuantity : Q) :
    Except Thrown (Amount L Q) :=
  match strategy.insistKind allegedQuantity with
  | .error e => .error e
  | .ok () => .ok { label := label, quantity := allegedQuantity }

/-- Source: `makeOfferDesc`. -/
def makeOfferDesc {R L Q : Type} [JsUndefined R] [JsUndefined L] [JsUndefined Q]
    (strategies : List (Strategy Q)) (labels : List L) (rules : List R) (quantities : List Q) :
    Except Thrown (List (OfferRule R L Q)) :=
  jsMap strategies fun strategy i =>
    match makeAmount strategy (jsGet labels i) (jsGet quantities i) with
    | .error e => .error e
    | .ok amount => .ok { rule := jsGet rules i, amount := amount }

/-- Source: `transpose`.  The `reduce` visits the rows in order; for each row the
`map` callback appends the row's entry `i` to `acc[i] || []`. -/
def transpose {α : Type} (matrix : List (List α)) : List (List α) :=
  matrix.foldl (fun acc row => row.mapIdx fun i entry => acc.getD i [] ++ [entry]) []

/-- Source: `vectorWith`.  Calling `.with` of a missing `strategies[i]` throws;
a missing `rightQuantities[i]` is handed on as `undefined`. -/
def vectorWith {Q : Type} [JsUndefined Q] (strategies : List (Strategy Q))
    (leftQuantities rightQuantities : List Q) : Except Thrown (List Q) :=
  jsMap leftQuantities fun leftQ i =>
    match strategies[i]? with
    | none => .error "TypeError: cannot read property with of undefined"
    | some strategy => strategy.«with» leftQ (jsGet rightQuantities i)

/-- Source: `vectorWithout`. -/
def vectorWithout {Q : Type} [JsUndefined Q] (strategies : List (Strategy Q))
    (leftQuantities rightQuantities : List Q) : Except Thrown (List Q) :=
  jsMap leftQuantities fun leftQ i =>
    match strategies[i]? with
    | none => .error "TypeError: cannot read property without of undefined"
    | some strategy => strategy.without leftQ (jsGet rightQuantities i)

/-- Source: `toAmountMatrix`.  With a missing `strategies[i]`, `makeAmount`
throws on reading its `insistKind`. -/
def toAmountMatrix {L Q : Type} [JsUndefined L] (strategies : List (Strategy Q))
    (labels : List L) (quantitiesMatrix : List (List Q)) :
    Except Thrown (List (List (Amount L Q))) :=
  jsMap quantitiesMatrix fun quantities _ =>
    jsMap quantities fun quantity i =>
      match strategies[i]? with
      | none => .error "TypeError: cannot read property insistKind of undefined"
      | some strategy => makeAmount strategy (jsGet labels i) quantity

/-- Source: `amountsToQuantitiesArray`.  An amount is `none` when it is
`undefined`; calling `.empty` of a missing `strategies[i]` throws. -/
def amountsToQuantitiesArray {L Q : Type} (strategies : List (Strategy Q))
    (amounts : List (Option (Amount L Q))) : Except Thrown (List Q) :=
  jsMap amounts fun amount i =>
    match amount with
    | none =>
      match strategies[i]? with
      | none => .error "TypeError: cannot read property empty of undefined"
      | some strategy => .ok strategy.empty
    | some amount => .ok amount.quantity

/-! ## `basicFungibleTokenOperations` -/

/-- The constant `Number.MAX_SAFE_INTEGER`, `2 ^ 53 - 1`. -/
def MAX_SAFE_INTEGER : Int := 9007199254740991

/-- Modelled from the spec: `Nat` (the package `@agoric/nat`) is not among the
sources.  A fungible quantity is a non-negative integer: `Nat` returns its
argument when that is a safe integer (at most `Number.MAX_SAFE_INTEGER` in
absolute value) and not negative, and throws a `RangeError` otherwise.  The
argument is an integer, or `none` for a value that is no integer at all
(`undefined`, `NaN`, an infinity). -/
def agoricNat (allegedNum : Option Int) : Except Thrown (Option Int) :=
  match allegedNum with
  | none => .error "RangeError: not a safe integer"
  | some n =>
    if n < -MAX_SAFE_INTEGER ∨ MAX_SAFE_INTEGER < n then
      .error "RangeError: not a safe integer"
    else if n < 0 then
      .error "RangeError: negative"
    else
      .ok (some n)

/-- The arithmetic `x + y`, `x - y`, `x * y` of JavaScript on operands that are
integers or `undefined`: with an `undefined` operand the result is `NaN`
(`none`).  An integer result that is a safe integer is exact, and one that is
not stays outside the safe integers after rounding. -/
def jsArith (op : Int → Int → Int) (x y : Option Int) : Option Int :=
  match x, y with
  | some a, some b => some (op a b)
  | _, _ => none

/-- The expression `Math.floor(x / y)` on operands that are integers or
`undefined`: with a zero divisor the quotient is an infinity or `NaN`, and so is
its floor (`none`). -/
def jsFloorDiv (x y : Option Int) : Option Int :=
  match x, y with
  | some a, some b => if b = 0 then none else some (Int.fdiv a b)
  | _, _ => none

/-- Source: `basicFungibleTokenOperations.add`. -/
def basicFungibleTokenOperations.add (x y : Option Int) : Except Thrown (Option Int) :=
  agoricNat (jsArith (fun a b => a + b) x y)

/-- Source: `basicFungibleTokenOperations.subtract`. -/
def basicFungibleTokenOperations.subtract (x y : Option Int) : Except Thrown (Option Int) :=
  agoricNat (jsArith (fun a b => a - b) x y)

/-- Source: `basicFungibleTokenOperations.multiply`. -/
def basicFungibleTokenOperations.multiply (x y : Option Int) : Except Thrown (Option Int) :=
  agoricNat (jsArith (fun a b => a * b) x y)

/-- Source: `basicFungibleTokenOperations.divide`. -/
def basicFungibleTokenOperations.divide (x y : Option Int) : Except Thrown (Option Int) :=
  agoricNat (jsFloorDiv x y)

/-- A valid fungible quantity: an integer that `Nat` accepts. -/
def IsQuantity (n : Int) : Prop := 0 ≤ n ∧ n ≤ MAX_SAFE_INTEGER

instance instDecidableIsQuantity (n : Int) : Decidable (IsQuantity n) := by
  unfold IsQuantity
  exact inferInstance

/-! ## `contracts/helpers/userFlow.js` -/

/-- The zoe of `userFlow.js`, which is not among the sources: a parameter.  Its
`complete` takes the invite handles and the assays, acts on zoe's own state
and may throw. -/
structure UserFlowZoe (σ A : Type) where
  complete : List Nat → A → σ → Except Thrown Unit × σ

/-- One call of `rejectOffer`: the calls of `zoe.complete` it made, in order,
how the call ended (`.ok` would be a normal return), and zoe's state afterwards. -/
structure RejectRun (σ A : Type) where
  completions : List (List Nat × A)
  result : Except Thrown Unit
  zoeState : σ

/-- Source: `rejectOffer`.  `message` is `none` when no message is given (the
parameter then takes its default); the `Error` thrown is identified by its message. -/
def rejectOffer {σ A : Type} (zoe : UserFlowZoe σ A) (assays : A) (inviteHandle : Nat)
    (message : Option String) (z : σ) : RejectRun σ A :=
  let message := message.getD "The offer was invalid. Please check your refund."
  match zoe.complete [inviteHandle] assays z with
  | (.error e, z1) =>
    { completions := [([inviteHandle], assays)], result := .error e, zoeState := z1 }
  | (.ok (), z1) =>
    { completions := [([inviteHandle], assays)], result := .error message, zoeState := z1 }

/-- Source: `defaultAcceptanceMsg`. -/
def defaultAcceptanceMsg : String :=
  "The offer has been accepted. Once the contract has been completed, please check your payout"

/-! ## Placeholders (`makePromise`) -/

/-- The state of a promise: pending, fulfilled with a value, or rejected with a reason. -/
inductive Settlement (α : Type) where
  | pending
  | resolved (value : α)
  | rejected (reason : Thrown)
  deriving DecidableEq, Repr

/-- Modelled from the spec: `makePromise` (`util/makePromise.js`) is not among
the sources.  It makes a record `{ p, res, rej }` (`reject` being `rej` under
another name) around a pending promise `p`; a placeholder is settled exactly
once, after which further attempts are no-ops.  This is `res(value)` acting on
the state of `p`, for a `value` that is not itself a promise. -/
def Settlement.res {α : Type} (p : Settlement α) (value : α) : Settlement α :=
  match p with
  | .pending => .resolved value
  | settled => settled

/-- Modelled from the spec: `rej(reason)` (and `reject(reason)`) of the record
made by `makePromise`, acting on the state of its promise. -/
def Settlement.rej {α : Type} (p : Settlement α) (reason : Thrown) : Settlement α :=
  match p with
  | .pending => .rejected reason
  | settled => settled

/-! ## `makeAPIMethod` -/

/-- What `zoe.burnEscrowReceipt` resolves to, `{ id, offerMade }`. -/
structure BurnResult (O : Type) where
  id : Nat
  offerMade : O

/-- What `handleOfferFn` resolves to, `{ offerIds, newQuantities, burnQuantities }`;
`burnQuantities` is `none` when it is `undefined`. -/
structure HandleResult (Q : Type) where
  offerIds : List Nat
  newQuantities : List (List Q)
  burnQuantities : Option (List Q)

/-- The governing contract facet of zoe, which is not among the sources: a
parameter.  Each method acts on zoe's own state `σ`.  For the awaited calls
(`burnEscrowReceipt`, `reallocateAndBurn`) `.error` is a throw or a rejected
promise; for the calls that are not awaited (`complete`, `reallocate`) `.error`
is a throw, and whatever they return is dropped. -/
structure ZoeFacet (σ O Q : Type) where
  burnEscrowReceipt : Nat → Nat → σ → Except Thrown (BurnResult O) × σ
  complete : Nat → List Nat → σ → Except Thrown Unit × σ
  reallocate : Nat → List Nat → List (List Q) → σ → Except Thrown Unit × σ
  reallocateAndBurn : Nat → List Nat → List (List Q) → List Q → σ → Except Thrown Unit × σ

/-- The calls the API method makes, as they are logged in order. -/
inductive Call (Q : Type) where
  | burnEscrowReceipt (instanceId escrowReceipt : Nat)
  | handleOffer (id : Nat)
  | reallocate (instanceId : Nat) (offerIds : List Nat) (newQuantities : List (List Q))
  | reallocateAndBurn (instanceId : Nat) (offerIds : List Nat) (newQuantities : List (List Q))
      (burnQuantities : List Q)
  | complete (instanceId : Nat) (offerIds : List Nat)
  deriving DecidableEq, Repr

/-- The argument record of `makeAPIMethod`.  `handleOfferFn` is asynchronous and
may use zoe's state; `.error` is its throw or rejection. -/
structure APIConfig (σ O Q : Type) where
  zoe : ZoeFacet σ O Q
  isValidOfferFn : O → Bool
  successMessage : String
  rejectMessage : String
  handleOfferFn : Nat → σ → Except Thrown (HandleResult Q) × σ
  instanceId : Nat

/-- One run of the API method: the calls it made, in order, the final state of
the promise it returned, and zoe's state afterwards. -/
structure Run (σ Q : Type) where
  calls : List (Call Q)
  outcome : Settlement String
  zoeState : σ

/-- The reallocation call the method makes for what `handleOfferFn` returned:
`reallocateAndBurn` when `burnQuantities !== undefined`, `reallocate` otherwise. -/
def reallocationCall {Q : Type} (instanceId : Nat) (handled : HandleResult Q) : Call Q :=
  match handled.burnQuantities with
  | some burnQuantities =>
    .reallocateAndBurn instanceId handled.offerIds handled.newQuantities burnQuantities
  | none => .reallocate instanceId handled.offerIds handled.newQuantities

/-- What zoe answers to that reallocation call. -/
def reallocation {σ O Q : Type} (cfg : APIConfig σ O Q) (handled : HandleResult Q) (z : σ) :
    Except Thrown Unit × σ :=
  match handled.burnQuantities with
  | some burnQuantities =>
    cfg.zoe.reallocateAndBurn cfg.instanceId handled.offerIds handled.newQuantities
      burnQuantities z
  | none => cfg.zoe.reallocate cfg.instanceId handled.offerIds handled.newQuantities z

/-- Source: the tail of `makeAPIMethod` from the reallocation on.  A throw (or a
rejected awaited promise) ends the asynchronous function, whose promise is then
rejected with what was thrown. -/
def reallocateAndComplete {σ O Q : Type} (cfg : APIConfig σ O Q) (result : Settlement String)
    (id : Nat) (handled : HandleResult Q) (calls : List (Call Q)) (z : σ) : Run σ Q :=
  match reallocation cfg handled z with
  | (.error e, z1) =>
    { calls := calls ++ [reallocationCall cfg.instanceId handled], outcome := .rejected e,
      zoeState := z1 }
  | (.ok (), z1) =>
    match cfg.zoe.complete cfg.instanceId [id] z1 with
    | (.error e, z2) =>
      { calls := calls ++ [reallocationCall cfg.instanceId handled,
          .complete cfg.instanceId [id]],
        outcome := .rejected e, zoeState := z2 }
    | (.ok (), z2) =>
      { calls := calls ++ [reallocationCall cfg.instanceId handled,
          .complete cfg.instanceId [id]],
        outcome := result.res cfg.successMessage, zoeState := z2 }

/-- Source: `makeAPIMethod`, the method it builds applied to an escrow receipt,
run to its end against zoe in state `z`.  The method returns `result.p`, so the
promise of the asynchronous function ends in the state of `result`, unless the
function throws first. -/
def makeAPIMethod {σ O Q : Type} (cfg : APIConfig σ O Q) (escrowReceipt : Nat) (z : σ) :
    Run σ Q :=
  let result : Settlement String := .pending
  let burn : Call Q := .burnEscrowReceipt cfg.instanceId escrowReceipt
  match cfg.zoe.burnEscrowReceipt cfg.instanceId escrowReceipt z with
  | (.error e, z1) => { calls := [burn], outcome := .rejected e, zoeState := z1 }
  | (.ok burned, z1) =>
    if !cfg.isValidOfferFn burned.offerMade then
      match cfg.zoe.complete cfg.instanceId [burned.id] z1 with
      | (.error e, z2) =>
        { calls := [burn, .complete cfg.instanceId [burned.id]], outcome := .rejected e,
          zoeState := z2 }
      | (.ok (), z2) =>
        { calls := [burn, .complete cfg.instanceId [burned.id]],
          outcome := result.rej cfg.rejectMessage, zoeState := z2 }
    else
      match cfg.handleOfferFn burned.id z1 with
      | (.error e, z2) =>
        { calls := [burn, .handleOffer burned.id], outcome := .rejected e, zoeState := z2 }
      | (.ok handled, z2) =>
        reallocateAndComplete cfg result burned.id handled [burn, .handleOffer burned.id] z2

/-! ## `agencyEscrow.js` -/

/-- The three records that `agencyEscrow.start` makes with `makePromise()`. -/
inductive Kit where
  | winnings
  | refund
  | deposit
  deriving DecidableEq, Repr

/-- The values that flow through an agency escrow: a payment (by the quantity
of currency it holds), a purse (by identity), and a record made by
`makePromise()`, which is neither a promise nor an asset. -/
inductive Val where
  | payment (quantity : Nat)
  | purse (id : Nat)
  | kit (k : Kit)
  deriving DecidableEq, Repr

/-- The terms of an agency escrow, `{ left: currencyAmount, right: goodsAmount }`. -/
structure Terms where
  left : Amount Label Nat
  right : Amount Label Nat
  deriving DecidableEq, Repr

/-- The objects an agency escrow talks to, none of them among the sources: parameters.
`redeem` is `inviteMaker.redeem` (the escrow seat, or a throw), `getExclusiveAll`
is the currency issuer's `getExclusiveAll(payment, name)` and `withdraw` is the
method `withdraw(price)` of an asset holder; `.error` is a throw or a rejection. -/
structure Collaborators where
  redeem : Nat → Except Thrown Nat
  getExclusiveAll : Val → Except Thrown Val
  withdraw : Val → Nat → Except Thrown Val

/-- What an agency escrow does to the objects around it, as logged in order. -/
inductive Effect where
  | getExclusiveAll (currencyOffer : Val)
  | redeem (escrowInvitation : Nat)
  | makeEmptyPurse (issuer : Nat) (purse : Nat)
  | withdraw (target : Val) (price : Nat)
  | escrowOffer (escrowSeat : Nat) (payment : Val)
  | collect (escrowSeat : Nat) (goodsPurse currencyPurse : Val) (name : String)
  deriving DecidableEq, Repr

/-- The state of one agency escrow: its terms, its three placeholders, the
effects so far and the number of purses made so far (a new purse gets the next
number). -/
structure Escrow where
  terms : Terms
  winnings : Settlement Val
  refund : Settlement Val
  deposit : Settlement Val
  effects : List Effect
  purses : Nat
  deriving DecidableEq, Repr

/-- Source: `agencyEscrow.start`, the three placeholders it makes. -/
def start (terms : Terms) : Escrow :=
  { terms := terms, winnings := .pending, refund := .pending, deposit := .pending,
    effects := [], purses := 0 }

/-- Source: `buyerSeat.offer`, run until its `then` callback has run (it does not
run when `getExclusiveAll` rejects). -/
def buyerOffer (env : Collaborators) (currencyOffer : Val) (s : Escrow) : Escrow :=
  let s1 := { s with effects := s.effects ++ [.getExclusiveAll currencyOffer] }
  match env.getExclusiveAll currencyOffer with
  | .error _ => s1
  | .ok prePayment => { s1 with deposit := s1.deposit.res prePayment }

/-- Source: `agencySeat.cancel`.  The argument of `refund.res` is `deposit`, the
record made by `makePromise()`. -/
def cancel (s : Escrow) : Escrow :=
  { s with winnings := s.winnings.rej "no deal", refund := s.refund.res (.kit .deposit) }

/-- The send `E(target).withdraw(price)`.  A record made by `makePromise()` has
the properties `p`, `res` and `rej` and no method `withdraw`, so the send to it
is rejected; an asset holder answers with its own `withdraw`. -/
def sendWithdraw (env : Collaborators) (target : Val) (price : Nat) : Except Thrown Val :=
  match target with
  | .kit _ => .error "TypeError: withdraw is not a function"
  | asset => env.withdraw asset price

/-- Source: `agencySeat.consummateDeal`, run until its `then` callback has run
(it does not run when the send of `withdraw` is rejected).  The target of the
send is `deposit`, the record made by `makePromise()`.  A throw of
`inviteMaker.redeem` ends the call. -/
def consummateDeal (env : Collaborators) (price escrowInvitation : Nat) (s : Escrow) : Escrow :=
  match env.redeem escrowInvitation with
  | .error _ => { s with effects := s.effects ++ [.redeem escrowInvitation] }
  | .ok escrowSeat =>
    let currencyPurse := Val.purse s.purses
    let goodsPurse := Val.purse (s.purses + 1)
    let s1 := { s with
      effects := s.effects ++
        [.redeem escrowInvitation,
         .makeEmptyPurse s.terms.left.label.issuer s.purses,
         .makeEmptyPurse s.terms.right.label.issuer (s.purses + 1),
         .withdraw (.kit .deposit) price],
      purses := s.purses + 2 }
    match sendWithdraw env (.kit .deposit) price with
    | .error _ => s1
    | .ok moneyPaymentP =>
      { s1 with
        effects := s1.effects ++
          [.escrowOffer escrowSeat moneyPaymentP,
           .collect escrowSeat goodsPurse currencyPurse "winning bidder"],
        refund := s1.refund.res currencyPurse,
        winnings := s1.winnings.res goodsPurse }

/-- A call on one of the two seats that acts on the escrow; the other seat
methods (`offerAmount`, `getWinnings`, `getRefund`) only read. -/
inductive SeatCall where
  | offer (currencyOffer : Val)
  | cancel
  | consummateDeal (price escrowInvitation : Nat)
  deriving DecidableEq, Repr

/-- One seat call. -/
def seatStep (env : Collaborators) (s : Escrow) : SeatCall → Escrow
  | .offer currencyOffer => buyerOffer env currencyOffer s
  | .cancel => cancel s
  | .consummateDeal price escrowInvitation => consummateDeal env price escrowInvitation s

/-- A sequence of seat calls, one after the other. -/
def seatCalls (env : Collaborators) (s : Escrow) (calls : List SeatCall) : Escrow :=
  calls.foldl (seatStep env) s

/-- The quantity of an invite amount, `{ seatDesc, terms, installation }`. -/
structure InviteQuantity (D : Type) where
  seatDesc : D
  terms : D
  installation : D

/-- Modelled from the spec: `mustBeSameStructure` (`util/sameStructure.js`) is
not among the sources.  It returns when its two arguments have the same
structure, which the comparison `sameStructure` decides, and throws otherwise,
with the message when one is given. -/
def mustBeSameStructure {D : Type} (sameStructure : D → D → Bool) (left right : D)
    (message : Option String) : Except Thrown Unit :=
  if sameStructure left right then .ok ()
  else .error (message.getD "not the same structure")

/-- Source: `agencyEscrow.checkAmount`. -/
def checkAmount {D L : Type} (sameStructure : D → D → Bool) (installation : D)
    (allegedInviteAmount : Amount L (InviteQuantity D)) (expectedTerms seat : D) :
    Except Thrown Bool :=
  match mustBeSameStructure sameStructure allegedInviteAmount.quantity.seatDesc seat none with
  | .error e => .error e
  | .ok () =>
    let allegedTerms := allegedInviteAmount.quantity.terms
    match mustBeSameStructure sameStructure allegedTerms expectedTerms
        (some "AgencyEscrow checkAmount") with
    | .error e => .error e
    | .ok () =>
      match mustBeSameStructure sameStructure allegedInviteAmount.quantity.installation
          installation (some "escrow checkAmount installation") with
      | .error e => .error e
      | .ok () => .ok true

/-! ## Escrow and settlement (zoe)

Zoe and the swap contract that the test `simpleOfferSwap` drives are not among
the sources; what follows is modelled from the spec. -/

/-- Modelled from the spec: a Seat (zoe is not among the sources), as far as
settlement uses it: the offer description its party committed to and the
quantities the party escrowed, one per asset slot. -/
structure Seat (Q : Type) where
  offer : List (OfferRule String Label Q)
  escrowed : List Q

/-- Modelled from the spec: the rule check of `deposit` at one slot (the Rule
Matcher of zoe is not among the sources).  `offerExactly` requires the
deposited amount to match the declared one exactly, in label and in quantity.
`offerAtMost` allows no deposit or one of the declared label that is at most
the ceiling, which is so when `without(ceiling, deposited)` does not fail.
`wantExactly` puts no condition on the deposit, and no other rule tag is an
offer rule. -/
def depositMatchesRule {Q : Type} (strategy : Strategy Q) (offerRule : OfferRule String Label Q)
    (payment : Option (Amount Label Q)) : Bool :=
  if offerRule.rule = "offerExactly" then
    match payment with
    | none => false
    | some deposited =>
      decide (deposited.label.issuer = offerRule.amount.label.issuer) &&
        strategy.equals deposited.quantity offerRule.amount.quantity
  else if offerRule.rule = "offerAtMost" then
    match payment with
    | none => true
    | some deposited =>
      decide (deposited.label.issuer = offerRule.amount.label.issuer) &&
        (match strategy.without offerRule.amount.quantity deposited.quantity with
         | .ok _ => true
         | .error _ => false)
  else
    decide (offerRule.rule = "wantExactly")

/-- Modelled from the spec: `deposit` (zoe's `escrow` is not among the sources).
It validates what is deposited at every slot against the declared rule, fails
with `RuleMismatchError` on a mismatch, and commits the seat's quantity vector:
the deposited quantity at each slot, the strategy's empty quantity where nothing
is deposited (`amountsToQuantitiesArray`). -/
def deposit {Q : Type} (strategies : List (Strategy Q)) (offer : List (OfferRule String Label Q))
    (payments : List (Option (Amount Label Q))) : Except Thrown (Seat Q) :=
  match every offer fun offerRule i =>
      match strategies[i]? with
      | none => .error "TypeError: no strategy for the slot"
      | some strategy => .ok (depositMatchesRule strategy offerRule (payments.getD i none)) with
  | .error e => .error e
  | .ok false => .error "RuleMismatchError"
  | .ok true =>
    match amountsToQuantitiesArray strategies payments with
    | .error e => .error e
    | .ok escrowed => .ok { offer := offer, escrowed := escrowed }

/-- Modelled from the spec: the sum of one slot's quantities across the seats
(zoe is not among the sources), combined with the slot strategy's `with` from
its empty quantity. -/
def slotSum {Q : Type} (strategy : Strategy Q) (column : List Q) : Except Thrown Q :=
  column.foldlM (fun total quantity => strategy.«with» total quantity) strategy.empty

/-- Modelled from the spec: the conservation check of settlement (zoe is not
among the sources): for every asset slot, the sum of the proposed quantities
across seats equals the sum of the escrowed quantities across seats.  The
columns of a matrix are the rows of its `transpose`. -/
def isConserved {Q : Type} (strategies : List (Strategy Q)) (escrowed proposed : List (List Q)) :
    Except Thrown Bool :=
  every strategies fun strategy i =>
    match slotSum strategy ((transpose escrowed).getD i []) with
    | .error e => .error e
    | .ok before =>
      match slotSum strategy ((transpose proposed).getD i []) with
      | .error e => .error e
      | .ok after => .ok (strategy.equals before after)

/-- Modelled from the spec: step (1) of settlement at one slot of one seat
(zoe and the swap contract are not among the sources): the new quantity that
reflects the trade's intended transfers, computed with the slot's strategy.  At
an `offerExactly` slot the party gives the offered amount away (its escrowed
quantity `without` the amount); at a `wantExactly` slot it receives the wanted
amount (its escrowed quantity `with` the amount).  What part of an `offerAtMost`
deposit a trade uses is left open by the spec; settlement of such a slot is not
modelled and fails. -/
def intendedQuantity {Q : Type} (strategy : Strategy Q) (offerRule : OfferRule String Label Q)
    (escrowed : Q) : Except Thrown Q :=
  if offerRule.rule = "offerExactly" then
    strategy.without escrowed offerRule.amount.quantity
  else if offerRule.rule = "wantExactly" then
    strategy.«with» escrowed offerRule.amount.quantity
  else
    .error "settlement of this rule is not modelled"

/-- Modelled from the spec: step (1) of settlement for one seat (zoe is not
among the sources): the proposed new quantity vector, one quantity per slot of
the seat's offer description. -/
def intendedTransfers {Q : Type} (strategies : List (Strategy Q)) (seat : Seat Q) :
    Except Thrown (List Q) :=
  jsMap seat.offer fun offerRule i =>
    match strategies[i]?, seat.escrowed[i]? with
    | some strategy, some escrowed => intendedQuantity strategy offerRule escrowed
    | _, _ => .error "no strategy or no escrowed quantity for the slot"

/-- Modelled from the spec: `attemptSettlement` (zoe is not among the sources).
(1) It computes every seat's proposed new quantity vector from the seat's offer
description and escrowed quantities; (2) it verifies conservation and fails with
`ConservationViolationError` when it does not hold; (3, 4) otherwise it commits
the new vectors and resolves every seat's payout with its new quantities, which
are returned seat by seat. -/
def attemptSettlement {Q : Type} (strategies : List (Strategy Q)) (seats : List (Seat Q)) :
    Except Thrown (List (List Q)) :=
  match jsMap seats fun seat _ => intendedTransfers strategies seat with
  | .error e => .error e
  | .ok proposed =>
    match isConserved strategies (seats.map fun seat => seat.escrowed) proposed with
    | .error e => .error e
    | .ok false => .error "ConservationViolationError"
    | .ok true => .ok proposed

/-- Modelled from the spec: a seat's offer is satisfied by a payout when, at
every `wantExactly` slot, the payout equals exactly the wanted amount (zoe is
not among the sources). -/
def isSatisfied {Q : Type} (strategies : List (Strategy Q)) (seat : Seat Q) (payout : List Q) :
    Prop :=
  ∀ i (ho : i < seat.offer.length) (hp : i < payout.length) (hs : i < strategies.length),
    seat.offer[i].rule = "wantExactly" →
      strategies[i].equals payout[i] seat.offer[i].amount.quantity = true

/-! ## Sample data for the concrete instances -/

/-- A sample strategy over integer-valued numbers, `none` being `undefined`:
the quantities of its kind are the natural numbers. -/
def sampleStrategy : Strategy (Option Int) where
  empty := some 0
  «with» := fun x y =>
    match x, y with
    | some a, some b => .ok (some (a + b))
    | _, _ => .error "not a number"
  without := fun x y =>
    match x, y with
    | some a, some b => if b ≤ a then .ok (some (a - b)) else .error "underflow"
    | _, _ => .error "not a number"
  equals := fun x y => decide (x = y)
  insistKind := fun q =>
    match q with
    | some n => if 0 ≤ n then .ok () else .error "not a natural number"
    | none => .error "not a natural number"

/-- The moola label of the samples. -/
def moola : Label := { issuer := 1, description := "moola" }

/-- The simolean label of the samples. -/
def simoleans : Label := { issuer := 2, description := "simoleans" }

/-- Alice's offer of the swap test: offer 3 moola exactly, want 7 simoleans exactly. -/
def aliceOffer : List (OfferRule String Label (Option Int)) :=
  [ { rule := "offerExactly", amount := { label := moola, quantity := some 3 } },
    { rule := "wantExactly", amount := { label := simoleans, quantity := some 7 } } ]

/-- A sample zoe facet whose state is the list of completed offer ids:
every receipt burns to offer 1 with Alice's offer, `reallocate` and
`reallocateAndBurn` throw on an empty `newQuantities` and return otherwise, and
`complete` records the offers it completes. -/
def sampleZoe : ZoeFacet (List Nat) (List (OfferRule String Label (Option Int))) (Option Int) where
  burnEscrowReceipt := fun _ _ z => (.ok { id := 1, offerMade := aliceOffer }, z)
  complete := fun _ offerIds z => (.ok (), z ++ offerIds)
  reallocate := fun _ _ newQuantities z =>
    if newQuantities.isEmpty then (.error "rights are not conserved", z) else (.ok (), z)
  reallocateAndBurn := fun _ _ newQuantities _ z =>
    if newQuantities.isEmpty then (.error "rights are not conserved", z) else (.ok (), z)

/-- A sample configuration on `sampleZoe`: the offer must have the given rule
tags, and the handler proposes the given reallocation for offers 0 and 1. -/
def sampleConfig (instanceId : Nat) (validRules : List String)
    (newQuantities : List (List (Option Int))) (burnQuantities : Option (List (Option Int))) :
    APIConfig (List Nat) (List (OfferRule String Label (Option Int))) (Option Int) where
  zoe := sampleZoe
  isValidOfferFn := fun offer =>
    match makeHasOkRules validRules offer with
    | .ok b => b
    | .error _ => false
  successMessage := "The offer has been accepted."
  rejectMessage := "The offer was invalid."
  handleOfferFn := fun _ z =>
    (.ok { offerIds := [0, 1], newQuantities := newQuantities,
           burnQuantities := burnQuantities }, z)
  instanceId := instanceId

/-- A sample zoe of `userFlow.js` whose state is the number of completions it
has been asked for. -/
def countingZoe : UserFlowZoe Nat (List Nat) where
  complete := fun _ _ n => (.ok (), n + 1)

/-- Sample terms of an agency escrow: 10 moola for 1 of the goods. -/
def sampleTerms : Terms :=
  { left := { label := moola, quantity := 10 },
    right := { label := { issuer := 3, description := "goods" }, quantity := 1 } }

/-- Sample collaborators: every invitation redeems to the seat of its number,
`getExclusiveAll` gives a payment of the same quantity for a payment, and a
payment or purse answers `withdraw`. -/
def sampleCollaborators : Collaborators where
  redeem := fun escrowInvitation => .ok escrowInvitation
  getExclusiveAll := fun currencyOffer =>
    match currencyOffer with
    | .payment quantity => .ok (.payment quantity)
    | _ => .error "not a payment"
  withdraw := fun _ price => .ok (.payment price)

/-- Modelled from the spec: the fungible strategy (its source is not among the
sources).  Quantities are non-negative integers, `empty` is zero, `with` is
addition and `without` is subtraction that fails rather than go negative; here
they are the operations of `basicFungibleTokenOperations` and `Nat`. -/
def fungibleStrategy : Strategy (Option Int) where
  empty := some 0
  «with» := basicFungibleTokenOperations.add
  without := basicFungibleTokenOperations.subtract
  equals := fun x y => decide (x = y)
  insistKind := fun q =>
    match agoricNat q with
    | .error e => .error e
    | .ok _ => .ok ()

/-- The offer of party A in the two-party swap: offer exactly `a` of slot 0
(moola), want exactly `b` of slot 1 (simoleans). -/
def swapOfferA (a b : Int) : List (OfferRule String Label (Option Int)) :=
  [ { rule := "offerExactly", amount := { label := moola, quantity := some a } },
    { rule := "wantExactly", amount := { label := simoleans, quantity := some b } } ]

/-- The mirrored offer of party B: want exactly `a` of slot 0, offer exactly
`b` of slot 1. -/
def swapOfferB (a b : Int) : List (OfferRule String Label (Option Int)) :=
  [ { rule := "wantExactly", amount := { label := moola, quantity := some a } },
    { rule := "offerExactly", amount := { label := simoleans, quantity := some b } } ]

/-! ## Lemmas on the array loops -/

theorem everyFrom_eq_true_iff {α : Type} (f : α → Nat → Except Thrown Bool) (xs : List α)
    (k : Nat) :
    everyFrom f xs k = .ok true ↔ ∀ i (h : i < xs.length), f xs[i] (k + i) = .ok true := by
  induction xs generalizing k with
  | nil => simp [everyFrom]
  | cons x xs ih =>
    constructor
    · intro h i hi
      unfold everyFrom at h
      cases hfx : f x k with
      | error e => rw [hfx] at h; cases h
      | ok b =>
        cases b with
        | false => rw [hfx] at h; cases h
        | true =>
          rw [hfx] at h
          cases i with
          | zero => simpa using hfx
          | succ j =>
            have := (ih (k + 1)).1 h j (by simpa using hi)
            simpa [Nat.add_assoc, Nat.add_comm 1 j] using this
    · intro h
      have h0 : f x k = .ok true := by simpa using h 0 (by simp)
      unfold everyFrom
      rw [h0]
      refine (ih (k + 1)).2 ?_
      intro i hi
      have := h (i + 1) (by simpa using hi)
      simpa [Nat.add_assoc, Nat.add_comm 1 i] using this

theorem everyFrom_total {α : Type} (f : α → Nat → Except Thrown Bool) (xs : List α) (k : Nat)
    (hf : ∀ i (h : i < xs.length), ∃ b, f xs[i] (k + i) = .ok b) :
    ∃ b, everyFrom f xs k = .ok b := by
  induction xs generalizing k with
  | nil => exact ⟨true, rfl⟩
  | cons x xs ih =>
    obtain ⟨b, hb⟩ : ∃ b, f x k = .ok b := by simpa using hf 0 (by simp)
    unfold everyFrom
    rw [hb]
    cases b with
    | false => exact ⟨false, rfl⟩
    | true =>
      refine ih (k + 1) ?_
      intro i hi
      have := hf (i + 1) (by simpa using hi)
      simpa [Nat.add_assoc, Nat.add_comm 1 i] using this

theorem offerEqualSlot_eq {R Q : Type} [DecidableEq R] (strategies : List (Strategy Q))
    (right : List (OfferRule R Label Q)) (leftRule : OfferRule R Label Q) (i : Nat)
    (hr : i < right.length) (hs : i < strategies.length) :
    offerEqualSlot strategies right leftRule i =
      .ok (decide (leftRule.rule = right[i].rule ∧
        leftRule.amount.label.issuer = right[i].amount.label.issuer ∧
        strategies[i].equals leftRule.amount.quantity right[i].amount.quantity = true)) := by
  unfold offerEqualSlot
  rw [List.getElem?_eq_getElem hr, List.getElem?_eq_getElem hs]
  simp only [ruleEqual, issuerEqual, quantityEqual]
  by_cases h1 : leftRule.rule = right[i].rule
  · by_cases h2 : leftRule.amount.label.issuer = right[i].amount.label.issuer
    · simp [h1, h2]
    · simp [h1, h2]
  · simp [h1]

/-- C1: with one strategy per slot, `offerEqual` returns a boolean, and it
returns true exactly when the two offers have the same length and agree at every
slot in rule tag, in issuer identity and, by the slot's `strategy.equals`, in
quantity; offers of different lengths are never equal. -/
theorem offerEqual_true_iff {R Q : Type} [DecidableEq R] (strategies : List (Strategy Q))
    (left right : List (OfferRule R Label Q)) (hslots : strategies.length = left.length) :
    (∃ b, offerEqual strategies left right = .ok b ∧
      (b = true ↔ left.length = right.length ∧
        ∀ i (hl : i < left.length) (hr : i < right.length) (hs : i < strategies.length),
          left[i].rule = right[i].rule ∧
          left[i].amount.label.issuer = right[i].amount.label.issuer ∧
          strategies[i].equals left[i].amount.quantity right[i].amount.quantity = true)) ∧
    (left.length ≠ right.length → offerEqual strategies left right = .ok false) := by
  by_cases hlen : left.length = right.length
  · refine ⟨?_, fun h => absurd hlen h⟩
    have hcb : ∀ i (hl : i < left.length) (hr : i < right.length) (hs : i < strategies.length),
        offerEqualSlot strategies right left[i] (0 + i) =
          .ok (decide (left[i].rule = right[i].rule ∧
            left[i].amount.label.issuer = right[i].amount.label.issuer ∧
            strategies[i].equals left[i].amount.quantity right[i].amount.quantity = true)) := by
      intro i hl hr hs
      simpa using offerEqualSlot_eq strategies right left[i] i hr hs
    obtain ⟨b, hb⟩ := everyFrom_total (offerEqualSlot strategies right) left 0
      (fun i h => ⟨_, hcb i h (hlen ▸ h) (hslots ▸ h)⟩)
    have hrun : offerEqual strategies left right = .ok b := by
      simp only [offerEqual, every, hlen, decide_True, Bool.not_true, Bool.false_eq_true,
        if_false]
      exact hb
    refine ⟨b, hrun, ?_⟩
    constructor
    · intro hbt
      subst hbt
      refine ⟨hlen, ?_⟩
      intro i hl hr hs
      have := (everyFrom_eq_true_iff _ left 0).1 hb i hl
      rw [hcb i hl hr hs] at this
      simpa using this
    · rintro ⟨-, hall⟩
      have : everyFrom (offerEqualSlot strategies right) left 0 = .ok true := by
        refine (everyFrom_eq_true_iff _ left 0).2 ?_
        intro i hl
        rw [hcb i hl (hlen ▸ hl) (hslots ▸ hl)]
        have := hall i hl (hlen ▸ hl) (hslots ▸ hl)
        simp [this]
      rw [this] at hb
      cases hb
      rfl
  · have hrun : offerEqual strategies left right = .ok false := by
      simp [offerEqual, hlen]
    refine ⟨⟨false, hrun, ?_⟩, fun _ => hrun⟩
    simp [hlen]

/-- C1 at Alice's offer of the swap test, compared with itself. -/
theorem offerEqual_true_iff_witness :
    (∃ b, offerEqual [sampleStrategy, sampleStrategy] aliceOffer aliceOffer = .ok b ∧
      (b = true ↔ aliceOffer.length = aliceOffer.length ∧
        ∀ i (hl : i < aliceOffer.length) (hr : i < aliceOffer.length)
          (hs : i < [sampleStrategy, sampleStrategy].length),
          aliceOffer[i].rule = aliceOffer[i].rule ∧
          aliceOffer[i].amount.label.issuer = aliceOffer[i].amount.label.issuer ∧
          [sampleStrategy, sampleStrategy][i].equals aliceOffer[i].amount.quantity
            aliceOffer[i].amount.quantity = true)) ∧
    (aliceOffer.length ≠ aliceOffer.length →
      offerEqual [sampleStrategy, sampleStrategy] aliceOffer aliceOffer = .ok false) :=
  offerEqual_true_iff [sampleStrategy, sampleStrategy] aliceOffer aliceOffer (by decide)

/-- C3: when the offer has at least as many slots as `validRules`,
`makeHasOkRules validRules offer` returns a boolean, and it returns true exactly
when the offer's rule tag equals the required one at every position of `validRules`. -/
theorem makeHasOkRules_true_iff {R L Q : Type} [DecidableEq R] (validRules : List R)
    (offer : List (OfferRule R L Q)) (hslots : validRules.length ≤ offer.length) :
    ∃ b, makeHasOkRules validRules offer = .ok b ∧
      (b = true ↔ ∀ i (hv : i < validRules.length) (ho : i < offer.length),
        offer[i].rule = validRules[i]) := by
  have hcb : ∀ i (hv : i < validRules.length) (ho : i < offer.length),
      (match offer[0 + i]? with
        | none => Except.error "TypeError: cannot read property rule of undefined"
        | some offerRule => Except.ok (decide (validRules[i] = offerRule.rule))) =
        (Except.ok (decide (validRules[i] = offer[i].rule)) : Except Thrown Bool) := by
    intro i hv ho
    simp [List.getElem?_eq_getElem ho]
  obtain ⟨b, hb⟩ := everyFrom_total (fun rule i =>
      match offer[i]? with
      | none => Except.error "TypeError: cannot read property rule of undefined"
      | some offerRule => Except.ok (decide (rule = offerRule.rule))) validRules 0
    (fun i h => ⟨_, hcb i h (lt_of_lt_of_le h hslots)⟩)
  refine ⟨b, hb, ?_⟩
  constructor
  · intro hbt i hv ho
    subst hbt
    have := (everyFrom_eq_true_iff _ validRules 0).1 hb i hv
    rw [hcb i hv ho] at this
    simpa [eq_comm] using this
  · intro hall
    have : everyFrom (fun rule i =>
        match offer[i]? with
        | none => Except.error "TypeError: cannot read property rule of undefined"
        | some offerRule => Except.ok (decide (rule = offerRule.rule))) validRules 0
        = .ok true := by
      refine (everyFrom_eq_true_iff _ validRules 0).2 ?_
      intro i hv
      have ho := lt_of_lt_of_le hv hslots
      rw [hcb i hv ho]
      simp [hall i hv ho]
    rw [this] at hb
    cases hb
    rfl

/-- C3 at the rule pattern of the swap and Alice's offer. -/
theorem makeHasOkRules_true_iff_witness :
    ∃ b, makeHasOkRules ["offerExactly", "wantExactly"] aliceOffer = .ok b ∧
      (b = true ↔ ∀ i (hv : i < ["offerExactly", "wantExactly"].length)
        (ho : i < aliceOffer.length),
        aliceOffer[i].rule = ["offerExactly", "wantExactly"][i]) :=
  makeHasOkRules_true_iff ["offerExactly", "wantExactly"] aliceOffer (by decide)

theorem mapFrom_eq_ok_iff {α β : Type} (f : α → Nat → Except Thrown β) (xs : List α) (k : Nat)
    (ys : List β) :
    mapFrom f xs k = .ok ys ↔
      ys.length = xs.length ∧
        ∀ i (hx : i < xs.length) (hy : i < ys.length), f xs[i] (k + i) = .ok ys[i] := by
  induction xs generalizing k ys with
  | nil =>
    cases ys with
    | nil => simp [mapFrom]
    | cons y ys => simp [mapFrom]
  | cons x xs ih =>
    unfold mapFrom
    cases hfx : f x k with
    | error e =>
      constructor
      · intro h
        cases h
      · rintro ⟨hlen, hall⟩
        exfalso
        cases ys with
        | nil => simp at hlen
        | cons y ys =>
          have := hall 0 (by simp) (by simp)
          simp [hfx] at this
    | ok y =>
      cases hrest : mapFrom f xs (k + 1) with
      | error e =>
        constructor
        · intro h
          cases h
        · rintro ⟨hlen, hall⟩
          exfalso
          cases ys with
          | nil => simp at hlen
          | cons y2 ys =>
            have hys : mapFrom f xs (k + 1) = .ok ys := by
              refine (ih (k + 1) ys).2 ⟨by simpa using hlen, ?_⟩
              intro i hx hy
              have := hall (i + 1) (by simpa using hx) (by simpa using hy)
              simpa [Nat.add_assoc, Nat.add_comm 1 i] using this
            rw [hrest] at hys
            cases hys
      | ok zs =>
        have hzs := (ih (k + 1) zs).1 hrest
        constructor
        · intro h
          cases h
          refine ⟨by simp [hzs.1], ?_⟩
          intro i hx hy
          cases i with
          | zero => simpa using hfx
          | succ j =>
            have := hzs.2 j (by simpa using hx) (by simpa using hy)
            simpa [Nat.add_assoc, Nat.add_comm 1 j] using this
        · rintro ⟨hlen, hall⟩
          cases ys with
          | nil => simp at hlen
          | cons y2 ys =>
            have h0 := hall 0 (by simp) (by simp)
            simp only [List.getElem_cons_zero, Nat.add_zero, hfx] at h0
            cases h0
            have hys : mapFrom f xs (k + 1) = .ok ys := by
              refine (ih (k + 1) ys).2 ⟨by simpa using hlen, ?_⟩
              intro i hx hy
              have := hall (i + 1) (by simpa using hx) (by simpa using hy)
              simpa [Nat.add_assoc, Nat.add_comm 1 i] using this
            rw [hrest] at hys
            cases hys
            rfl

theorem mapFrom_fails_iff {α β : Type} (f : α → Nat → Except Thrown β) (xs : List α) (k : Nat) :
    (∃ e, mapFrom f xs k = .error e) ↔
      ∃ i, ∃ (h : i < xs.length), ∃ e, f xs[i] (k + i) = .error e := by
  induction xs generalizing k with
  | nil => simp [mapFrom]
  | cons x xs ih =>
    unfold mapFrom
    cases hfx : f x k with
    | error e =>
      constructor
      · intro _
        exact ⟨0, by simp, e, by simpa using hfx⟩
      · intro _
        exact ⟨e, rfl⟩
    | ok y =>
      cases hrest : mapFrom f xs (k + 1) with
      | error e =>
        obtain ⟨i, hi, e2, he2⟩ := (ih (k + 1)).1 ⟨e, hrest⟩
        constructor
        · intro _
          refine ⟨i + 1, by simpa using hi, e2, ?_⟩
          simpa [Nat.add_assoc, Nat.add_comm 1 i] using he2
        · intro _
          exact ⟨e, rfl⟩
      | ok zs =>
        constructor
        · rintro ⟨e, he⟩
          cases he
        · rintro ⟨i, hi, e, he⟩
          exfalso
          cases i with
          | zero =>
            simp only [List.getElem_cons_zero, Nat.add_zero, hfx] at he
            cases he
          | succ j =>
            have hj : j < xs.length := by simpa using hi
            have : ∃ e, mapFrom f xs (k + 1) = .error e := by
              refine (ih (k + 1)).2 ⟨j, hj, e, ?_⟩
              simpa [Nat.add_assoc, Nat.add_comm 1 j] using he
            obtain ⟨e3, he3⟩ := this
            rw [hrest] at he3
            cases he3

theorem makeAmount_eq_ok_iff {L Q : Type} (strategy : Strategy Q) (label : L) (q : Q)
    (amount : Amount L Q) :
    makeAmount strategy label q = .ok amount ↔
      strategy.insistKind q = .ok () ∧ amount = { label := label, quantity := q } := by
  unfold makeAmount
  cases h : strategy.insistKind q with
  | error e => simp
  | ok u =>
    cases u
    simp [eq_comm]

theorem makeAmount_fails_iff {L Q : Type} (strategy : Strategy Q) (label : L) (q : Q) :
    (∃ e, makeAmount strategy label q = .error e) ↔ ∃ e, strategy.insistKind q = .error e := by
  unfold makeAmount
  cases h : strategy.insistKind q with
  | error e => simp
  | ok u =>
    cases u
    simp

theorem makeOfferDesc_slot_fails_iff {R L Q : Type} [JsUndefined R] [JsUndefined L]
    [JsUndefined Q] (labels : List L) (rules : List R) (quantities : List Q)
    (strategy : Strategy Q) (i : Nat) :
    (∃ e, (match makeAmount strategy (jsGet labels i) (jsGet quantities i) with
        | .error e => Except.error e
        | .ok amount => Except.ok { rule := jsGet rules i, amount := amount } :
        Except Thrown (OfferRule R L Q)) = .error e) ↔
      ∃ e, strategy.insistKind (jsGet quantities i) = .error e := by
  rw [← makeAmount_fails_iff strategy (jsGet labels i) (jsGet quantities i)]
  cases makeAmount strategy (jsGet labels i) (jsGet quantities i) with
  | error e => simp
  | ok a => simp

/-- C2: `makeOfferDesc` fails exactly when, at some slot below
`strategies.length`, the slot's `insistKind` rejects `quantities[i]`; every
amount of a returned offer description, and every amount `makeAmount` returns,
holds a quantity that passed its strategy's `insistKind`. -/
theorem makeOfferDesc_fails_iff {R L Q : Type} [JsUndefined R] [JsUndefined L] [JsUndefined Q]
    (strategies : List (Strategy Q)) (labels : List L) (rules : List R) (quantities : List Q) :
    ((∃ e, makeOfferDesc strategies labels rules quantities = .error e) ↔
      ∃ i, ∃ (h : i < strategies.length), ∃ e,
        strategies[i].insistKind (jsGet quantities i) = .error e) ∧
    (∀ offer : List (OfferRule R L Q),
      makeOfferDesc strategies labels rules quantities = .ok offer →
        offer.length = strategies.length ∧
        ∀ i (ho : i < offer.length) (hs : i < strategies.length),
          strategies[i].insistKind offer[i].amount.quantity = .ok ()) ∧
    (∀ (strategy : Strategy Q) (label : L) (allegedQuantity : Q) (amount : Amount L Q),
      makeAmount strategy label allegedQuantity = .ok amount →
        strategy.insistKind amount.quantity = .ok ()) := by
  refine ⟨?_, ?_, ?_⟩
  · unfold makeOfferDesc jsMap
    rw [mapFrom_fails_iff]
    constructor
    · rintro ⟨i, h, he⟩
      exact ⟨i, h, by
        simpa using (makeOfferDesc_slot_fails_iff labels rules quantities strategies[i] (0 + i)).1 he⟩
    · rintro ⟨i, h, he⟩
      exact ⟨i, h,
        (makeOfferDesc_slot_fails_iff labels rules quantities strategies[i] (0 + i)).2
          (by simpa using he)⟩
  · intro offer hrun
    unfold makeOfferDesc jsMap at hrun
    obtain ⟨hlen, hall⟩ := (mapFrom_eq_ok_iff _ strategies 0 offer).1 hrun
    refine ⟨hlen, ?_⟩
    intro i ho hs
    have hslot := hall i hs ho
    simp only [Nat.zero_add] at hslot
    cases hamt : makeAmount strategies[i] (jsGet labels i) (jsGet quantities i) with
    | error e => rw [hamt] at hslot; cases hslot
    | ok amount =>
      rw [hamt] at hslot
      obtain ⟨hkind, hrec⟩ := (makeAmount_eq_ok_iff _ _ _ _).1 hamt
      have hq : offer[i].amount.quantity = jsGet quantities i := by
        have : offer[i] = { rule := jsGet rules i, amount := amount } :=
          (Except.ok.inj hslot).symm
        rw [this, hrec]
      rw [hq]
      exact hkind
  · intro strategy label q amount hrun
    obtain ⟨hkind, hrec⟩ := (makeAmount_eq_ok_iff _ _ _ _).1 hrun
    rw [hrec]
    exact hkind

/-- C2 at the two slots of Alice's offer: the description is built, so no slot's
`insistKind` rejects its quantity. -/
theorem makeOfferDesc_fails_iff_witness :
    (makeOfferDesc [sampleStrategy, sampleStrategy] [some moola, some simoleans]
        [some "offerExactly", some "wantExactly"] [some 3, some 7] =
      .ok [ { rule := some "offerExactly",
              amount := { label := some moola, quantity := some 3 } },
            { rule := some "wantExactly",
              amount := { label := some simoleans, quantity := some 7 } } ]) ∧
    ¬ ∃ i, ∃ (h : i < [sampleStrategy, sampleStrategy].length), ∃ e,
        [sampleStrategy, sampleStrategy][i].insistKind
          (jsGet [some (3 : Int), some 7] i) = .error e := by
  have hrun : makeOfferDesc [sampleStrategy, sampleStrategy] [some moola, some simoleans]
        [some "offerExactly", some "wantExactly"] [some 3, some 7] =
      .ok [ { rule := some "offerExactly",
              amount := { label := some moola, quantity := some 3 } },
            { rule := some "wantExactly",
              amount := { label := some simoleans, quantity := some 7 } } ] := by rfl
  refine ⟨hrun, fun h => ?_⟩
  obtain ⟨e, he⟩ := (makeOfferDesc_fails_iff [sampleStrategy, sampleStrategy]
    [some moola, some simoleans] [some "offerExactly", some "wantExactly"]
    [some 3, some 7]).1.2 h
  rw [hrun] at he
  cases he

/-! ## The API method -/

theorem reallocateAndComplete_rejected {σ O Q : Type} (cfg : APIConfig σ O Q)
    (result : Settlement String) (id : Nat) (handled : HandleResult Q) (calls : List (Call Q))
    (z z1 : σ) (e : Thrown) (hrealloc : reallocation cfg handled z = (.error e, z1)) :
    reallocateAndComplete cfg result id handled calls z =
      { calls := calls ++ [reallocationCall cfg.instanceId handled], outcome := .rejected e,
        zoeState := z1 } := by
  unfold reallocateAndComplete
  rw [hrealloc]

theorem reallocateAndComplete_accepted {σ O Q : Type} (cfg : APIConfig σ O Q)
    (result : Settlement String) (id : Nat) (handled : HandleResult Q) (calls : List (Call Q))
    (z z1 z2 : σ) (hrealloc : reallocation cfg handled z = (.ok (), z1))
    (hcomplete : cfg.zoe.complete cfg.instanceId [id] z1 = (.ok (), z2)) :
    reallocateAndComplete cfg result id handled calls z =
      { calls := calls ++ [reallocationCall cfg.instanceId handled,
          .complete cfg.instanceId [id]],
        outcome := result.res cfg.successMessage, zoeState := z2 } := by
  unfold reallocateAndComplete
  rw [hrealloc]
  simp only
  rw [hcomplete]

/-- C4: when `isValidOfferFn` returns false on the offer description got by
burning the escrow receipt, and zoe answers the completion of that offer, the
method fails fast: it makes exactly two calls, the burn and then `zoe.complete`
with `[id]` (so `handleOfferFn` is not invoked and nothing is reallocated), zoe
is left in the state after that completion, and the returned promise is
rejected with `rejectMessage`. -/
theorem makeAPIMethod_invalid_offer {σ O Q : Type} (cfg : APIConfig σ O Q)
    (escrowReceipt : Nat) (z z1 z2 : σ) (burned : BurnResult O)
    (hburn : cfg.zoe.burnEscrowReceipt cfg.instanceId escrowReceipt z = (.ok burned, z1))
    (hinvalid : cfg.isValidOfferFn burned.offerMade = false)
    (hcomplete : cfg.zoe.complete cfg.instanceId [burned.id] z1 = (.ok (), z2)) :
    (makeAPIMethod cfg escrowReceipt z).calls =
      [.burnEscrowReceipt cfg.instanceId escrowReceipt,
       .complete cfg.instanceId [burned.id]] ∧
    (∀ id, Call.handleOffer id ∉ (makeAPIMethod cfg escrowReceipt z).calls) ∧
    (∀ (instanceId : Nat) (handled : HandleResult Q),
      reallocationCall instanceId handled ∉ (makeAPIMethod cfg escrowReceipt z).calls) ∧
    (makeAPIMethod cfg escrowReceipt z).outcome = .rejected cfg.rejectMessage ∧
    (makeAPIMethod cfg escrowReceipt z).zoeState = z2 := by
  have hrun : makeAPIMethod cfg escrowReceipt z =
      { calls := [.burnEscrowReceipt cfg.instanceId escrowReceipt,
          .complete cfg.instanceId [burned.id]],
        outcome := .rejected cfg.rejectMessage, zoeState := z2 } := by
    unfold makeAPIMethod
    simp only [hburn, hinvalid, Bool.not_false, if_true, hcomplete]
    rfl
  rw [hrun]
  refine ⟨rfl, ?_, ?_, rfl, rfl⟩
  · intro id hmem
    simp only [List.mem_cons, List.mem_singleton, List.not_mem_nil, or_false] at hmem
    rcases hmem with h | h <;> cases h
  · intro instanceId handled hmem
    simp only [List.mem_cons, List.mem_singleton, List.not_mem_nil, or_false] at hmem
    unfold reallocationCall at hmem
    cases hb : handled.burnQuantities with
    | none => rw [hb] at hmem; rcases hmem with h | h <;> cases h
    | some bq => rw [hb] at hmem; rcases hmem with h | h <;> cases h

/-- C4 at the sample zoe: Alice's offer burned against the rule pattern
`["wantExactly"]`, which it does not have. -/
theorem makeAPIMethod_invalid_offer_witness :
    (sampleConfig 1 ["wantExactly"] [] none).isValidOfferFn aliceOffer = false ∧
    (makeAPIMethod (sampleConfig 1 ["wantExactly"] [] none) 9 []).calls =
      [.burnEscrowReceipt 1 9, .complete 1 [1]] ∧
    (makeAPIMethod (sampleConfig 1 ["wantExactly"] [] none) 9 []).outcome =
      .rejected "The offer was invalid." ∧
    (makeAPIMethod (sampleConfig 1 ["wantExactly"] [] none) 9 []).zoeState = [1] :=
  have h := makeAPIMethod_invalid_offer (sampleConfig 1 ["wantExactly"] [] none) 9 [] [] [1]
    { id := 1, offerMade := aliceOffer } rfl (by rfl) rfl
  ⟨by rfl, h.1, h.2.2.2.1, h.2.2.2.2⟩

theorem makeAPIMethod_valid_offer {σ O Q : Type} (cfg : APIConfig σ O Q)
    (escrowReceipt : Nat) (z z1 z2 : σ) (burned : BurnResult O) (handled : HandleResult Q)
    (hburn : cfg.zoe.burnEscrowReceipt cfg.instanceId escrowReceipt z = (.ok burned, z1))
    (hvalid : cfg.isValidOfferFn burned.offerMade = true)
    (hhandle : cfg.handleOfferFn burned.id z1 = (.ok handled, z2)) :
    makeAPIMethod cfg escrowReceipt z =
      reallocateAndComplete cfg .pending burned.id handled
        [.burnEscrowReceipt cfg.instanceId escrowReceipt, .handleOffer burned.id] z2 := by
  unfold makeAPIMethod
  simp only [hburn, hvalid, Bool.not_true, Bool.false_eq_true, if_false, hhandle]

/-- C5, the claim as stated fails: on the sample zoe the offer is valid and
`handleOfferFn` returns a reallocation with no `burnQuantities`, which
`zoe.reallocate` throws on; `zoe.complete` is then not called and the returned
promise is rejected, not resolved to `successMessage`. -/
theorem makeAPIMethod_valid_offer_reallocate_throws :
    (sampleConfig 1 ["offerExactly"] [] none).isValidOfferFn aliceOffer = true ∧
    (makeAPIMethod (sampleConfig 1 ["offerExactly"] [] none) 9 []).calls =
      [.burnEscrowReceipt 1 9, .handleOffer 1, .reallocate 1 [0, 1] []] ∧
    (makeAPIMethod (sampleConfig 1 ["offerExactly"] [] none) 9 []).outcome ≠
      .resolved (sampleConfig 1 ["offerExactly"] [] none).successMessage := by
  refine ⟨by rfl, by rfl, ?_⟩
  have h : (makeAPIMethod (sampleConfig 1 ["offerExactly"] [] none) 9 []).outcome =
      .rejected "rights are not conserved" := by rfl
  rw [h]
  intro hne
  cases hne

/-- C5 as amended: when `isValidOfferFn` accepts the offer, `handleOfferFn`
returns `{offerIds, newQuantities, burnQuantities}`, zoe accepts the
reallocation and `zoe.complete` returns, the method makes exactly one
reallocation call, with that `offerIds` and `newQuantities`
(`reallocateAndBurn`, also given `burnQuantities`, when `burnQuantities` is
defined, `reallocate` otherwise), then calls `zoe.complete` exactly once, with
`[id]`, and the returned promise resolves to `successMessage`. -/
theorem makeAPIMethod_success {σ O Q : Type} (cfg : APIConfig σ O Q)
    (escrowReceipt : Nat) (z z1 z2 z3 z4 : σ) (burned : BurnResult O)
    (handled : HandleResult Q)
    (hburn : cfg.zoe.burnEscrowReceipt cfg.instanceId escrowReceipt z = (.ok burned, z1))
    (hvalid : cfg.isValidOfferFn burned.offerMade = true)
    (hhandle : cfg.handleOfferFn burned.id z1 = (.ok handled, z2))
    (hrealloc : reallocation cfg handled z2 = (.ok (), z3))
    (hcomplete : cfg.zoe.complete cfg.instanceId [burned.id] z3 = (.ok (), z4)) :
    (makeAPIMethod cfg escrowReceipt z).calls =
      [.burnEscrowReceipt cfg.instanceId escrowReceipt, .handleOffer burned.id,
       (match handled.burnQuantities with
        | some burnQuantities =>
          .reallocateAndBurn cfg.instanceId handled.offerIds handled.newQuantities
            burnQuantities
        | none => .reallocate cfg.instanceId handled.offerIds handled.newQuantities),
       .complete cfg.instanceId [burned.id]] ∧
    (makeAPIMethod cfg escrowReceipt z).outcome = .resolved cfg.successMessage ∧
    (makeAPIMethod cfg escrowReceipt z).zoeState = z4 := by
  rw [makeAPIMethod_valid_offer cfg escrowReceipt z z1 z2 burned handled hburn hvalid hhandle,
    reallocateAndComplete_accepted cfg .pending burned.id handled _ z2 z3 z4 hrealloc
      hcomplete]
  refine ⟨?_, rfl, rfl⟩
  simp only [reallocationCall, List.cons_append, List.nil_append]

/-- C5 as amended, at the sample zoe: a reallocation with `burnQuantities`. -/
theorem makeAPIMethod_success_witness :
    (makeAPIMethod (sampleConfig 1 ["offerExactly"] [[some 0, some 7], [some 3, some 0]]
        (some [some 0, some 0])) 9 []).calls =
      [.burnEscrowReceipt 1 9, .handleOffer 1,
       .reallocateAndBurn 1 [0, 1] [[some 0, some 7], [some 3, some 0]] [some 0, some 0],
       .complete 1 [1]] ∧
    (makeAPIMethod (sampleConfig 1 ["offerExactly"] [[some 0, some 7], [some 3, some 0]]
        (some [some 0, some 0])) 9 []).outcome = .resolved "The offer has been accepted." :=
  have h := makeAPIMethod_success
    (sampleConfig 1 ["offerExactly"] [[some 0, some 7], [some 3, some 0]]
      (some [some 0, some 0])) 9 [] [] [] [] [1]
    { id := 1, offerMade := aliceOffer }
    { offerIds := [0, 1], newQuantities := [[some 0, some 7], [some 3, some 0]],
      burnQuantities := some [some 0, some 0] }
    rfl (by rfl) rfl rfl rfl
  ⟨h.1, h.2.1⟩

/-- C6, the claim as stated fails: on the sample zoe the offer is valid and
`zoe.reallocateAndBurn` rejects the proposed reallocation; `zoe.complete` is
not called at all. -/
theorem makeAPIMethod_rejected_reallocation_no_complete :
    (sampleConfig 1 ["offerExactly"] [] (some [])).isValidOfferFn aliceOffer = true ∧
    (makeAPIMethod (sampleConfig 1 ["offerExactly"] [] (some [])) 9 []).calls =
      [.burnEscrowReceipt 1 9, .handleOffer 1, .reallocateAndBurn 1 [0, 1] [] []] ∧
    Call.complete 1 [1] ∉ (makeAPIMethod (sampleConfig 1 ["offerExactly"] [] (some [])) 9 []).calls ∧
    (makeAPIMethod (sampleConfig 1 ["offerExactly"] [] (some [])) 9 []).zoeState = [] := by
  have h : (makeAPIMethod (sampleConfig 1 ["offerExactly"] [] (some [])) 9 []).calls =
      [.burnEscrowReceipt 1 9, .handleOffer 1, .reallocateAndBurn 1 [0, 1] [] []] := by rfl
  refine ⟨by rfl, h, ?_, by rfl⟩
  rw [h]
  decide

/-- C6 as amended: when the offer is valid but zoe rejects the reallocation that
`handleOfferFn` proposed (`zoe.reallocate` throws, or `zoe.reallocateAndBurn`
throws or its promise is rejected), the failure propagates: the reallocation
call is the last call the method makes, so `zoe.complete` is not called, and the
returned promise is rejected with zoe's error, hence is not resolved to
`successMessage`. -/
theorem makeAPIMethod_rejected_reallocation {σ O Q : Type} (cfg : APIConfig σ O Q)
    (escrowReceipt : Nat) (z z1 z2 z3 : σ) (burned : BurnResult O)
    (handled : HandleResult Q) (e : Thrown)
    (hburn : cfg.zoe.burnEscrowReceipt cfg.instanceId escrowReceipt z = (.ok burned, z1))
    (hvalid : cfg.isValidOfferFn burned.offerMade = true)
    (hhandle : cfg.handleOfferFn burned.id z1 = (.ok handled, z2))
    (hrealloc : reallocation cfg handled z2 = (.error e, z3)) :
    (makeAPIMethod cfg escrowReceipt z).calls =
      [.burnEscrowReceipt cfg.instanceId escrowReceipt, .handleOffer burned.id,
       reallocationCall cfg.instanceId handled] ∧
    (∀ offerIds, Call.complete cfg.instanceId offerIds ∉ (makeAPIMethod cfg escrowReceipt z).calls) ∧
    (makeAPIMethod cfg escrowReceipt z).outcome = .rejected e ∧
    (makeAPIMethod cfg escrowReceipt z).outcome ≠ .resolved cfg.successMessage ∧
    (makeAPIMethod cfg escrowReceipt z).zoeState = z3 := by
  rw [makeAPIMethod_valid_offer cfg escrowReceipt z z1 z2 burned handled hburn hvalid hhandle,
    reallocateAndComplete_rejected cfg .pending burned.id handled _ z2 z3 e hrealloc]
  refine ⟨rfl, ?_, rfl, ?_, rfl⟩
  · intro offerIds hmem
    simp only [List.cons_append, List.nil_append, List.mem_cons, List.mem_singleton,
      List.not_mem_nil, or_false] at hmem
    rcases hmem with h | h | h
    · cases h
    · cases h
    · unfold reallocationCall at h
      cases hb : handled.burnQuantities with
      | none => rw [hb] at h; cases h
      | some bq => rw [hb] at h; cases h
  · intro h
    cases h

/-- C6 as amended, at the sample zoe: `reallocate` throws on the proposal. -/
theorem makeAPIMethod_rejected_reallocation_witness :
    (makeAPIMethod (sampleConfig 2 ["offerExactly"] [] none) 9 []).calls =
      [.burnEscrowReceipt 2 9, .handleOffer 1, .reallocate 2 [0, 1] []] ∧
    (makeAPIMethod (sampleConfig 2 ["offerExactly"] [] none) 9 []).outcome =
      .rejected "rights are not conserved" :=
  have h := makeAPIMethod_rejected_reallocation
    (sampleConfig 2 ["offerExactly"] [] none) 9 [] [] [] []
    { id := 1, offerMade := aliceOffer }
    { offerIds := [0, 1], newQuantities := [], burnQuantities := none }
    "rights are not conserved" rfl (by rfl) rfl rfl
  ⟨h.1, h.2.2.1⟩

/-! ## The agency escrow -/

theorem Settlement.res_of_ne_pending {α : Type} (p : Settlement α) (value : α)
    (h : p ≠ .pending) : p.res value = p := by
  cases p with
  | pending => exact absurd rfl h
  | resolved v => rfl
  | rejected r => rfl

theorem Settlement.rej_of_ne_pending {α : Type} (p : Settlement α) (reason : Thrown)
    (h : p ≠ .pending) : p.rej reason = p := by
  cases p with
  | pending => exact absurd rfl h
  | resolved v => rfl
  | rejected r => rfl

theorem Settlement.res_ne_pending {α : Type} (p : Settlement α) (value : α) :
    p.res value ≠ .pending := by
  cases p <;> simp [Settlement.res]

theorem Settlement.rej_ne_pending {α : Type} (p : Settlement α) (reason : Thrown) :
    p.rej reason ≠ .pending := by
  cases p <;> simp [Settlement.rej]

theorem seatStep_keeps_settled (env : Collaborators) (s : Escrow) (call : SeatCall)
    (hw : s.winnings ≠ .pending) (hr : s.refund ≠ .pending) :
    (seatStep env s call).winnings = s.winnings ∧ (seatStep env s call).refund = s.refund := by
  cases call with
  | offer currencyOffer =>
    simp only [seatStep, buyerOffer]
    cases env.getExclusiveAll currencyOffer <;> exact ⟨rfl, rfl⟩
  | cancel =>
    simp only [seatStep, cancel]
    exact ⟨Settlement.rej_of_ne_pending _ _ hw, Settlement.res_of_ne_pending _ _ hr⟩
  | consummateDeal price escrowInvitation =>
    simp only [seatStep, consummateDeal]
    cases env.redeem escrowInvitation with
    | error e => exact ⟨rfl, rfl⟩
    | ok escrowSeat =>
      simp only
      cases sendWithdraw env (.kit .deposit) price with
      | error e => exact ⟨rfl, rfl⟩
      | ok moneyPaymentP =>
        exact ⟨Settlement.res_of_ne_pending _ _ hw, Settlement.res_of_ne_pending _ _ hr⟩

theorem seatCalls_keep_settled (env : Collaborators) (calls : List SeatCall) (s : Escrow)
    (hw : s.winnings ≠ .pending) (hr : s.refund ≠ .pending) :
    (seatCalls env s calls).winnings = s.winnings ∧
      (seatCalls env s calls).refund = s.refund := by
  induction calls generalizing s with
  | nil => exact ⟨rfl, rfl⟩
  | cons call calls ih =>
    obtain ⟨h1, h2⟩ := seatStep_keeps_settled env s call hw hr
    have := ih (seatStep env s call) (h1 ▸ hw) (h2 ▸ hr)
    simp only [seatCalls, List.foldl_cons] at this ⊢
    rw [this.1, this.2, h1, h2]
    exact ⟨rfl, rfl⟩

theorem consummateDeal_redeems (env : Collaborators) (s : Escrow) (price escrowInvitation : Nat) :
    (consummateDeal env price escrowInvitation s).effects.take (s.effects.length + 1) =
      s.effects ++ [.redeem escrowInvitation] := by
  unfold consummateDeal
  cases env.redeem escrowInvitation with
  | error e => simp
  | ok escrowSeat =>
    simp only
    cases sendWithdraw env (.kit .deposit) price with
    | error e => simp [List.take_append_eq_append_take]
    | ok moneyPaymentP => simp [List.take_append_eq_append_take]

/-- C7, the code at a deposit of 5 followed by `cancel()`: the winnings
placeholder is rejected, but the refund placeholder is resolved with `deposit`,
the record made by `makePromise()`, and not with the deposited payment. -/
theorem cancel_resolves_refund_to_record :
    (buyerOffer sampleCollaborators (.payment 5) (start sampleTerms)).deposit =
      .resolved (.payment 5) ∧
    (cancel (buyerOffer sampleCollaborators (.payment 5) (start sampleTerms))).winnings =
      .rejected "no deal" ∧
    (cancel (buyerOffer sampleCollaborators (.payment 5) (start sampleTerms))).refund =
      .resolved (.kit .deposit) ∧
    (cancel (buyerOffer sampleCollaborators (.payment 5) (start sampleTerms))).refund ≠
      .resolved (.payment 5) := by
  decide

/-- C8, the code at a deposit of 10 and a price of 3: `withdraw` is sent to
`deposit`, the record made by `makePromise()`, the send is rejected and the
callback does not run; no payment is offered to the escrow seat, the refund and
winnings placeholders stay pending and the deposit still holds all 10. -/
theorem consummateDeal_leaves_refund_pending :
    (consummateDeal sampleCollaborators 3 7
      (buyerOffer sampleCollaborators (.payment 10) (start sampleTerms))).effects =
      [.getExclusiveAll (.payment 10), .redeem 7, .makeEmptyPurse 1 0, .makeEmptyPurse 3 1,
       .withdraw (.kit .deposit) 3] ∧
    (consummateDeal sampleCollaborators 3 7
      (buyerOffer sampleCollaborators (.payment 10) (start sampleTerms))).refund = .pending ∧
    (consummateDeal sampleCollaborators 3 7
      (buyerOffer sampleCollaborators (.payment 10) (start sampleTerms))).winnings = .pending ∧
    (consummateDeal sampleCollaborators 3 7
      (buyerOffer sampleCollaborators (.payment 10) (start sampleTerms))).deposit =
      .resolved (.payment 10) := by
  decide

/-- C9, the claim as stated fails: after a deposit of 10 and `cancel()`, a later
`consummateDeal(3, 7)` still redeems invitation 7 and makes two purses. -/
theorem consummateDeal_after_cancel_redeems :
    Effect.redeem 7 ∉
      (cancel (buyerOffer sampleCollaborators (.payment 10) (start sampleTerms))).effects ∧
    Effect.redeem 7 ∈
      (consummateDeal sampleCollaborators 3 7
        (cancel (buyerOffer sampleCollaborators (.payment 10) (start sampleTerms)))).effects ∧
    (cancel (buyerOffer sampleCollaborators (.payment 10) (start sampleTerms))).purses = 0 ∧
    (consummateDeal sampleCollaborators 3 7
      (cancel (buyerOffer sampleCollaborators (.payment 10) (start sampleTerms)))).purses = 2 := by
  decide

/-- C9 as amended: once `cancel()` has been called both the winnings and the
refund placeholder are settled, and they keep their outcome whatever seat calls
follow (`offer`, `cancel`, `consummateDeal`, in any number and order); a
repeated `cancel()` changes nothing at all.  `consummateDeal` is not guarded:
called after `cancel()` it still hands the invitation to `inviteMaker.redeem`. -/
theorem cancel_is_final (env : Collaborators) (s : Escrow) (calls : List SeatCall) :
    (cancel s).winnings ≠ .pending ∧ (cancel s).refund ≠ .pending ∧
    (seatCalls env (cancel s) calls).winnings = (cancel s).winnings ∧
    (seatCalls env (cancel s) calls).refund = (cancel s).refund ∧
    cancel (cancel s) = cancel s ∧
    (∀ price escrowInvitation,
      (consummateDeal env price escrowInvitation (cancel s)).effects.take
        ((cancel s).effects.length + 1) = (cancel s).effects ++ [.redeem escrowInvitation]) := by
  have hw : (cancel s).winnings ≠ .pending := Settlement.rej_ne_pending _ _
  have hr : (cancel s).refund ≠ .pending := Settlement.res_ne_pending _ _
  obtain ⟨h1, h2⟩ := seatCalls_keep_settled env calls (cancel s) hw hr
  refine ⟨hw, hr, h1, h2, ?_, consummateDeal_redeems env (cancel s)⟩
  have e1 : (s.winnings.rej "no deal").rej "no deal" = s.winnings.rej "no deal" :=
    Settlement.rej_of_ne_pending _ _ (Settlement.rej_ne_pending _ _)
  have e2 : (s.refund.res (.kit .deposit)).res (.kit .deposit) =
      s.refund.res (.kit .deposit) :=
    Settlement.res_of_ne_pending _ _ (Settlement.res_ne_pending _ _)
  simp only [cancel, e1, e2]

/-- C10: `checkAmount` returns true exactly when the alleged amount's `seatDesc`
has the same structure as `seat`, its `terms` as `expectedTerms` and its
`installation` as `installation`; when one of the three differs the call throws. -/
theorem checkAmount_true_iff {D L : Type} (sameStructure : D → D → Bool) (installation : D)
    (allegedInviteAmount : Amount L (InviteQuantity D)) (expectedTerms seat : D) :
    (checkAmount sameStructure installation allegedInviteAmount expectedTerms seat = .ok true ↔
      (sameStructure allegedInviteAmount.quantity.seatDesc seat = true ∧
        sameStructure allegedInviteAmount.quantity.terms expectedTerms = true ∧
        sameStructure allegedInviteAmount.quantity.installation installation = true)) ∧
    (¬ (sameStructure allegedInviteAmount.quantity.seatDesc seat = true ∧
        sameStructure allegedInviteAmount.quantity.terms expectedTerms = true ∧
        sameStructure allegedInviteAmount.quantity.installation installation = true) →
      ∃ e, checkAmount sameStructure installation allegedInviteAmount expectedTerms seat =
        .error e) := by
  cases h1 : sameStructure allegedInviteAmount.quantity.seatDesc seat <;>
    cases h2 : sameStructure allegedInviteAmount.quantity.terms expectedTerms <;>
    cases h3 : sameStructure allegedInviteAmount.quantity.installation installation <;>
    simp [checkAmount, mustBeSameStructure, h1, h2, h3]

/-! ## The fungible operations -/

theorem agoricNat_of_quantity (n : Int) (h : IsQuantity n) : agoricNat (some n) = .ok (some n) := by
  obtain ⟨h0, h1⟩ := h
  unfold MAX_SAFE_INTEGER at h1
  unfold agoricNat MAX_SAFE_INTEGER
  dsimp only
  rw [if_neg (by omega), if_neg (by omega)]

theorem agoricNat_eq_ok_iff (allegedNum r : Option Int) :
    agoricNat allegedNum = .ok r ↔ ∃ n, allegedNum = some n ∧ r = some n ∧ IsQuantity n := by
  cases allegedNum with
  | none => simp [agoricNat]
  | some n =>
    unfold agoricNat IsQuantity MAX_SAFE_INTEGER
    dsimp only
    by_cases h1 : n < -9007199254740991 ∨ 9007199254740991 < n
    · rw [if_pos h1]
      simp only [Option.some.injEq, exists_eq_left', false_iff, not_and, reduceCtorEq]
      intro _
      omega
    · rw [if_neg h1]
      by_cases h2 : n < 0
      · rw [if_pos h2]
        simp only [Option.some.injEq, exists_eq_left', false_iff, not_and, reduceCtorEq]
        intro _
        omega
      · rw [if_neg h2]
        simp only [Except.ok.injEq, Option.some.injEq, exists_eq_left']
        constructor
        · intro h
          exact ⟨h.symm, by omega, by omega⟩
        · intro h
          exact h.1.symm

/-- C11: for valid fungible quantities `x` and `y` (non-negative integers that
`Nat` accepts), `subtract(x, y)` returns `x - y` when `y <= x` and throws when
`y > x`; whatever it returns is `x - y` and is not negative, so a result is
never truncated to zero. -/
theorem subtract_quantities (x y : Int) (hx : IsQuantity x) (hy : IsQuantity y) :
    (y ≤ x → basicFungibleTokenOperations.subtract (some x) (some y) = .ok (some (x - y))) ∧
    (x < y → ∃ e, basicFungibleTokenOperations.subtract (some x) (some y) = .error e) ∧
    (∀ r, basicFungibleTokenOperations.subtract (some x) (some y) = .ok r →
      r = some (x - y) ∧ 0 ≤ x - y) := by
  obtain ⟨hx0, hx1⟩ := hx
  obtain ⟨hy0, hy1⟩ := hy
  refine ⟨?_, ?_, ?_⟩
  · intro hle
    exact agoricNat_of_quantity (x - y) ⟨by omega, by omega⟩
  · intro hlt
    unfold MAX_SAFE_INTEGER at hx1 hy1
    unfold basicFungibleTokenOperations.subtract jsArith agoricNat MAX_SAFE_INTEGER
    simp only
    rw [if_neg (by omega), if_pos (by omega)]
    exact ⟨_, rfl⟩
  · intro r hr
    obtain ⟨n, hn, hrn, hq⟩ := (agoricNat_eq_ok_iff _ r).1 hr
    simp only [jsArith, Option.some.injEq] at hn
    subst hn
    exact ⟨hrn, hq.1⟩

/-- C11 at `subtract(5, 3)`. -/
theorem subtract_quantities_witness :
    basicFungibleTokenOperations.subtract (some 5) (some 3) = .ok (some 2) :=
  (subtract_quantities 5 3 (by decide) (by decide)).1 (by decide)

/-- C19: for valid fungible quantities `x` and `y`, `divide(x, y)` returns the
floor of `x / y` when `y > 0` (the integer `q` with `q * y <= x < (q + 1) * y`),
so that `divide(multiply(x, y), y)` is `x` whenever the product is a valid
quantity, and throws when `y = 0`. -/
theorem divide_quantities (x y : Int) (hx : IsQuantity x) (hy : IsQuantity y) :
    (0 < y → ∃ q, basicFungibleTokenOperations.divide (some x) (some y) = .ok (some q) ∧
      q * y ≤ x ∧ x < (q + 1) * y) ∧
    (0 < y → IsQuantity (x * y) →
      basicFungibleTokenOperations.multiply (some x) (some y) = .ok (some (x * y)) ∧
      basicFungibleTokenOperations.divide (some (x * y)) (some y) = .ok (some x)) ∧
    (y = 0 → ∃ e, basicFungibleTokenOperations.divide (some x) (some y) = .error e) := by
  refine ⟨?_, ?_, ?_⟩
  · intro hpos
    refine ⟨x / y, ?_, Int.ediv_mul_le x (by omega), Int.lt_ediv_add_one_mul_self x hpos⟩
    unfold basicFungibleTokenOperations.divide jsFloorDiv
    simp only
    rw [if_neg (by omega), Int.fdiv_eq_ediv x (by omega)]
    exact agoricNat_of_quantity _
      ⟨Int.ediv_nonneg hx.1 (by omega), le_trans (Int.ediv_le_self y hx.1) hx.2⟩
  · intro hpos hproduct
    refine ⟨agoricNat_of_quantity (x * y) hproduct, ?_⟩
    unfold basicFungibleTokenOperations.divide jsFloorDiv
    simp only
    rw [if_neg (by omega), Int.fdiv_eq_ediv _ (by omega), Int.mul_ediv_cancel x (by omega)]
    exact agoricNat_of_quantity x hx
  · intro h0
    subst h0
    exact ⟨_, rfl⟩

/-- C19 at `divide(7, 2)` and at `divide(multiply(7, 2), 2)`. -/
theorem divide_quantities_witness :
    (∃ q, basicFungibleTokenOperations.divide (some 7) (some 2) = .ok (some q) ∧
      q * 2 ≤ 7 ∧ 7 < (q + 1) * 2) ∧
    basicFungibleTokenOperations.multiply (some 7) (some 2) = .ok (some (7 * 2)) ∧
    basicFungibleTokenOperations.divide (some (7 * 2)) (some 2) = .ok (some 7) :=
  ⟨(divide_quantities 7 2 (by decide) (by decide)).1 (by decide),
    (divide_quantities 7 2 (by decide) (by decide)).2.1 (by decide) (by decide)⟩

/-! ## Offer descriptions and quantity arrays -/

/-- C13: when every slot's quantity passes its strategy's `insistKind`,
`makeOfferDesc` returns a list with exactly one offer rule per strategy, whose
slot `i` is `{rule: rules[i], amount: {label: labels[i], quantity: quantities[i]}}`. -/
theorem makeOfferDesc_slots {R L Q : Type} [JsUndefined R] [JsUndefined L] [JsUndefined Q]
    (strategies : List (Strategy Q)) (labels : List L) (rules : List R) (quantities : List Q)
    (hkind : ∀ i (h : i < strategies.length),
      strategies[i].insistKind (jsGet quantities i) = .ok ()) :
    ∃ offer : List (OfferRule R L Q),
      makeOfferDesc strategies labels rules quantities = .ok offer ∧
      offer.length = strategies.length ∧
      ∀ i (h : i < offer.length),
        offer[i] = { rule := jsGet rules i,
                     amount := { label := jsGet labels i, quantity := jsGet quantities i } } := by
  refine ⟨strategies.mapIdx fun i _ =>
    { rule := jsGet rules i,
      amount := { label := jsGet labels i, quantity := jsGet quantities i } }, ?_, ?_, ?_⟩
  · unfold makeOfferDesc jsMap
    refine (mapFrom_eq_ok_iff _ strategies 0 _).2 ⟨by simp, ?_⟩
    intro i hx hy
    simp only [Nat.zero_add, List.getElem_mapIdx]
    have hamt : makeAmount strategies[i] (jsGet labels i) (jsGet quantities i) =
        .ok { label := jsGet labels i, quantity := jsGet quantities i } :=
      (makeAmount_eq_ok_iff _ _ _ _).2 ⟨hkind i hx, rfl⟩
    rw [hamt]
  · simp
  · intro i h
    simp

/-- C13 at the two slots of Alice's offer. -/
theorem makeOfferDesc_slots_witness :
    ∃ offer : List (OfferRule (Option String) (Option Label) (Option Int)),
      makeOfferDesc [fungibleStrategy, fungibleStrategy] [some moola, some simoleans]
        [some "offerExactly", some "wantExactly"] [some 3, some 7] = .ok offer ∧
      offer.length = [fungibleStrategy, fungibleStrategy].length ∧
      ∀ i (h : i < offer.length),
        offer[i] = { rule := jsGet [some "offerExactly", some "wantExactly"] i,
                     amount := { label := jsGet [some moola, some simoleans] i,
                                 quantity := jsGet [some (3 : Int), some 7] i } } :=
  makeOfferDesc_slots [fungibleStrategy, fungibleStrategy] [some moola, some simoleans]
    [some "offerExactly", some "wantExactly"] [some 3, some 7] (by
      intro i h
      have hi : i = 0 ∨ i = 1 := by
        simp only [List.length_cons, List.length_nil] at h
        omega
      rcases hi with rfl | rfl <;> rfl)

/-- C17: for `amounts` of the same length as `strategies`,
`amountsToQuantitiesArray` returns a list of that length whose entry `i` is
`strategies[i].empty()` when `amounts[i]` is undefined and `amounts[i].quantity`
otherwise; when every amount is undefined it returns `makeEmptyQuantities(strategies)`. -/
theorem amountsToQuantitiesArray_entries {L Q : Type} (strategies : List (Strategy Q))
    (amounts : List (Option (Amount L Q))) (hlen : amounts.length = strategies.length) :
    ∃ quantities, amountsToQuantitiesArray strategies amounts = .ok quantities ∧
      quantities.length = amounts.length ∧
      (∀ i (hq : i < quantities.length) (ha : i < amounts.length) (hs : i < strategies.length),
        quantities[i] =
          match amounts[i] with
          | none => strategies[i].empty
          | some amount => amount.quantity) ∧
      ((∀ amount ∈ amounts, amount = none) → quantities = makeEmptyQuantities strategies) := by
  have hrun : amountsToQuantitiesArray strategies amounts =
      .ok (List.zipWith (fun amount strategy =>
        match amount with
        | none => strategy.empty
        | some amount => amount.quantity) amounts strategies) := by
    unfold amountsToQuantitiesArray jsMap
    refine (mapFrom_eq_ok_iff _ amounts 0 _).2 ⟨by simp [hlen], ?_⟩
    intro i hx hy
    have hs : i < strategies.length := hlen ▸ hx
    simp only [Nat.zero_add, List.getElem_zipWith, List.getElem?_eq_getElem hs]
    cases amounts[i] <;> rfl
  refine ⟨_, hrun, by simp [hlen], ?_, ?_⟩
  · intro i hq ha hs
    simp only [List.getElem_zipWith]
  · intro hnone
    unfold makeEmptyQuantities
    apply List.ext_getElem
    · simp [hlen]
    · intro i h1 h2
      have ha : i < amounts.length := by simpa [hlen] using h1
      simp only [List.getElem_zipWith, List.getElem_map]
      rw [hnone amounts[i] (List.getElem_mem ha)]

/-- C17 at two slots, nothing escrowed in the first. -/
theorem amountsToQuantitiesArray_entries_witness :
    amountsToQuantitiesArray [fungibleStrategy, fungibleStrategy]
      [none, some ({ label := simoleans, quantity := some 7 } : Amount Label (Option Int))] =
      .ok [some 0, some 7] := by
  obtain ⟨quantities, hrun, hlen, hentries, _⟩ :=
    amountsToQuantitiesArray_entries [fungibleStrategy, fungibleStrategy]
      [none, some ({ label := simoleans, quantity := some 7 } : Amount Label (Option Int))] rfl
  rw [hrun]
  congr 1
  apply List.ext_getElem
  · simpa using hlen
  · intro i h1 h2
    have hi : i = 0 ∨ i = 1 := by
      simp only [List.length_cons, List.length_nil] at h2
      omega
    rcases hi with rfl | rfl
    · rw [hentries 0 h1 (by decide) (by decide)]
      rfl
    · rw [hentries 1 h1 (by decide) (by decide)]
      rfl

/-! ## `rejectOffer` -/

/-- C18: `rejectOffer` never returns normally.  It calls `zoe.complete` exactly
once, with `[inviteHandle]` and `assays`: the call is the only completion it
makes and zoe is left in the state after that one call, whether the call
returned or threw.  When the call returns, `rejectOffer` throws an error
carrying `message`, which is the default text when no message is given; when
the call itself throws, that throw ends `rejectOffer` and no second completion
is attempted. -/
theorem rejectOffer_throws {σ A : Type} (zoe : UserFlowZoe σ A) (assays : A)
    (inviteHandle : Nat) (message : Option String) (z : σ) :
    (∃ e, (rejectOffer zoe assays inviteHandle message z).result = .error e) ∧
    (rejectOffer zoe assays inviteHandle message z).completions = [([inviteHandle], assays)] ∧
    (rejectOffer zoe assays inviteHandle message z).zoeState =
      (zoe.complete [inviteHandle] assays z).2 ∧
    (∀ z1, zoe.complete [inviteHandle] assays z = (.ok (), z1) →
      (rejectOffer zoe assays inviteHandle message z).result =
        .error (match message with
          | some text => text
          | none => "The offer was invalid. Please check your refund.") ∧
      (rejectOffer zoe assays inviteHandle message z).zoeState = z1) ∧
    (∀ e z1, zoe.complete [inviteHandle] assays z = (.error e, z1) →
      (rejectOffer zoe assays inviteHandle message z).result = .error e ∧
      (rejectOffer zoe assays inviteHandle message z).zoeState = z1) := by
  unfold rejectOffer
  rcases hc : zoe.complete [inviteHandle] assays z with ⟨r, z1⟩
  cases r with
  | error e =>
    refine ⟨⟨e, rfl⟩, rfl, rfl, ?_, ?_⟩
    · intro z2 h
      cases h
    · intro e2 z2 h
      cases h
      exact ⟨rfl, rfl⟩
  | ok u =>
    cases u
    refine ⟨⟨_, rfl⟩, rfl, rfl, ?_, ?_⟩
    · intro z2 h
      cases h
      exact ⟨by cases message <;> rfl, rfl⟩
    · intro e2 z2 h
      cases h

/-- C18 at a zoe that counts its completions, from none: after `rejectOffer`
with no message it has counted one, and the default text is thrown. -/
theorem rejectOffer_throws_counts_one :
    (rejectOffer countingZoe [1, 2] 7 none 0).result =
      .error "The offer was invalid. Please check your refund." ∧
    (rejectOffer countingZoe [1, 2] 7 none 0).zoeState = 1 :=
  (rejectOffer_throws countingZoe [1, 2] 7 none 0).2.2.2.1 1 rfl

/-! ## Amount matrices -/

theorem toAmountMatrix_row {L Q : Type} [JsUndefined L] (strategies : List (Strategy Q))
    (labels : List L) (quantities : List Q) (hshape : quantities.length = strategies.length)
    (hkind : ∀ i (hr : i < quantities.length) (hs : i < strategies.length),
      strategies[i].insistKind quantities[i] = .ok ()) :
    (jsMap quantities fun quantity i =>
      match strategies[i]? with
      | none => .error "TypeError: cannot read property insistKind of undefined"
      | some strategy => makeAmount strategy (jsGet labels i) quantity) =
      .ok (quantities.mapIdx fun i quantity =>
        ({ label := jsGet labels i, quantity := quantity } : Amount L Q)) := by
  unfold jsMap
  refine (mapFrom_eq_ok_iff _ quantities 0 _).2 ⟨by simp, ?_⟩
  intro i hx hy
  have hs : i < strategies.length := hshape ▸ hx
  simp only [Nat.zero_add, List.getElem_mapIdx, List.getElem?_eq_getElem hs]
  exact (makeAmount_eq_ok_iff _ _ _ _).2 ⟨hkind i hx hs, rfl⟩

theorem amountsToQuantitiesArray_of_defined {L Q : Type} (strategies : List (Strategy Q))
    (amounts : List (Amount L Q)) :
    amountsToQuantitiesArray strategies (amounts.map some) =
      .ok (amounts.map fun amount => amount.quantity) := by
  unfold amountsToQuantitiesArray jsMap
  refine (mapFrom_eq_ok_iff _ _ 0 _).2 ⟨by simp, ?_⟩
  intro i hx hy
  simp only [List.getElem_map]

/-- C15: for a quantities matrix whose rows have one entry per strategy, every
entry passing its strategy's `insistKind`, `toAmountMatrix` returns a matrix of
the same shape whose entry `[r][i]` is `{label: labels[i], quantity: m[r][i]}`,
and `amountsToQuantitiesArray` maps each of its rows back to the row of `m`. -/
theorem toAmountMatrix_roundtrip {L Q : Type} [JsUndefined L] (strategies : List (Strategy Q))
    (labels : List L) (m : List (List Q))
    (hshape : ∀ row ∈ m, row.length = strategies.length)
    (hkind : ∀ row ∈ m, ∀ i (hr : i < row.length) (hs : i < strategies.length),
      strategies[i].insistKind row[i] = .ok ()) :
    ∃ amounts : List (List (Amount L Q)),
      toAmountMatrix strategies labels m = .ok amounts ∧
      amounts.length = m.length ∧
      (∀ r (ha : r < amounts.length) (hm : r < m.length),
        amounts[r].length = m[r].length ∧
        (∀ i (hi : i < amounts[r].length) (hq : i < m[r].length),
          amounts[r][i] = { label := jsGet labels i, quantity := m[r][i] }) ∧
        amountsToQuantitiesArray strategies (amounts[r].map some) = .ok m[r]) := by
  refine ⟨m.map fun quantities => quantities.mapIdx fun i quantity =>
    ({ label := jsGet labels i, quantity := quantity } : Amount L Q), ?_, by simp, ?_⟩
  · unfold toAmountMatrix jsMap
    refine (mapFrom_eq_ok_iff _ m 0 _).2 ⟨by simp, ?_⟩
    intro r hx hy
    simp only [List.getElem_map]
    have hmem : m[r] ∈ m := List.getElem_mem hx
    exact toAmountMatrix_row strategies labels m[r] (hshape _ hmem) (hkind _ hmem)
  · intro r ha hm
    simp only [List.getElem_map, List.length_mapIdx, List.getElem_mapIdx, implies_true,
      true_and]
    rw [amountsToQuantitiesArray_of_defined]
    congr 1
    apply List.ext_getElem
    · simp
    · intro i h1 h2
      simp

/-- C15 at a matrix of two rows and two slots. -/
theorem toAmountMatrix_roundtrip_witness :
    ∃ amounts : List (List (Amount (Option Label) (Option Int))),
      toAmountMatrix [fungibleStrategy, fungibleStrategy] [some moola, some simoleans]
        [[some 3, some 0], [some 0, some 7]] = .ok amounts ∧
      amounts.length = [[some (3 : Int), some 0], [some 0, some 7]].length ∧
      (∀ r (ha : r < amounts.length)
          (hm : r < [[some (3 : Int), some 0], [some 0, some 7]].length),
        amounts[r].length = [[some (3 : Int), some 0], [some 0, some 7]][r].length ∧
        (∀ i (hi : i < amounts[r].length)
            (hq : i < [[some (3 : Int), some 0], [some 0, some 7]][r].length),
          amounts[r][i] = { label := jsGet [some moola, some simoleans] i,
                            quantity := [[some (3 : Int), some 0], [some 0, some 7]][r][i] }) ∧
        amountsToQuantitiesArray [fungibleStrategy, fungibleStrategy] (amounts[r].map some) =
          .ok [[some (3 : Int), some 0], [some 0, some 7]][r]) :=
  toAmountMatrix_roundtrip [fungibleStrategy, fungibleStrategy] [some moola, some simoleans]
    [[some 3, some 0], [some 0, some 7]] (by decide) (by
      intro row hrow i hr hs
      simp only [List.mem_cons, List.mem_singleton, List.not_mem_nil, or_false] at hrow
      have hi : i = 0 ∨ i = 1 := by
        simp only [List.length_cons, List.length_nil] at hs
        omega
      rcases hrow with rfl | rfl <;> rcases hi with rfl | rfl <;> rfl)

/-! ## Quantity vectors -/

theorem jsGet_of_lt {α : Type} [JsUndefined α] (xs : List α) (i : Nat) (h : i < xs.length) :
    jsGet xs i = xs[i] := by
  unfold jsGet
  simp [List.getD_eq_getElem?_getD, List.getElem?_eq_getElem h]

/-- C12, the claim as stated fails: `MAX_SAFE_INTEGER` and `1` are valid
fungible quantities, but their sum is not, so `vectorWith` throws on them and
there is no vector to take `b` from again. -/
theorem vectorWith_sum_not_a_quantity :
    IsQuantity MAX_SAFE_INTEGER ∧ IsQuantity 1 ∧
    fungibleStrategy.«with» = basicFungibleTokenOperations.add ∧
    fungibleStrategy.without = basicFungibleTokenOperations.subtract ∧
    vectorWith [fungibleStrategy] [some MAX_SAFE_INTEGER] [some 1] =
      .error "RangeError: not a safe integer" := by
  refine ⟨by decide, by decide, rfl, rfl, ?_⟩
  rfl

/-- C12 as amended: for vectors `a` and `b` of valid fungible quantities of the
same length as `strategies`, every slot strategy using fungible addition as
`with` and fungible subtraction as `without`, and every slot sum `a[i] + b[i]`
being itself a valid quantity (at most `Number.MAX_SAFE_INTEGER`),
`vectorWith(strategies, a, b)` succeeds and `vectorWithout` of its result and
`b` succeeds and equals `a` slot by slot. -/
theorem vectorWithout_vectorWith (strategies : List (Strategy (Option Int))) (a b : List Int)
    (hfungible : ∀ strategy ∈ strategies,
      strategy.«with» = basicFungibleTokenOperations.add ∧
      strategy.without = basicFungibleTokenOperations.subtract)
    (ha : a.length = strategies.length) (hb : b.length = strategies.length)
    (hqa : ∀ x ∈ a, IsQuantity x) (hqb : ∀ y ∈ b, IsQuantity y)
    (hsum : ∀ i (h1 : i < a.length) (h2 : i < b.length), a[i] + b[i] ≤ MAX_SAFE_INTEGER) :
    ∃ sums, vectorWith strategies (a.map some) (b.map some) = .ok sums ∧
      sums.length = a.length ∧
      vectorWithout strategies sums (b.map some) = .ok (a.map some) := by
  refine ⟨List.zipWith (fun x y => some (x + y)) a b, ?_, by simp [ha, hb], ?_⟩
  · unfold vectorWith jsMap
    refine (mapFrom_eq_ok_iff _ _ 0 _).2 ⟨by simp [ha, hb], ?_⟩
    intro i hx hy
    have h1 : i < a.length := by simpa using hx
    have hs : i < strategies.length := ha ▸ h1
    have h2 : i < b.length := hb ▸ hs
    have hbi : jsGet (b.map some) i = some b[i] := by
      rw [jsGet_of_lt _ _ (by simpa using h2)]
      simp
    simp only [Nat.zero_add, List.getElem_map, List.getElem_zipWith,
      List.getElem?_eq_getElem hs, hbi, (hfungible _ (List.getElem_mem hs)).1]
    exact agoricNat_of_quantity _
      ⟨Int.add_nonneg (hqa _ (List.getElem_mem h1)).1 (hqb _ (List.getElem_mem h2)).1,
        hsum i h1 h2⟩
  · unfold vectorWithout jsMap
    refine (mapFrom_eq_ok_iff _ _ 0 _).2 ⟨by simp [ha, hb], ?_⟩
    intro i hx hy
    have h1 : i < a.length := by simpa using hy
    have hs : i < strategies.length := ha ▸ h1
    have h2 : i < b.length := hb ▸ hs
    have hbi : jsGet (b.map some) i = some b[i] := by
      rw [jsGet_of_lt _ _ (by simpa using h2)]
      simp
    simp only [Nat.zero_add, List.getElem_map, List.getElem_zipWith,
      List.getElem?_eq_getElem hs, hbi, (hfungible _ (List.getElem_mem hs)).2]
    have hdiff : a[i] + b[i] - b[i] = a[i] := by omega
    unfold basicFungibleTokenOperations.subtract jsArith
    simp only [hdiff]
    exact agoricNat_of_quantity _ (hqa _ (List.getElem_mem h1))

/-- C12 as amended, at `a = [3, 0]` and `b = [0, 7]`. -/
theorem vectorWithout_vectorWith_witness :
    ∃ sums, vectorWith [fungibleStrategy, fungibleStrategy] [some 3, some 0] [some 0, some 7] =
        .ok sums ∧
      sums.length = 2 ∧
      vectorWithout [fungibleStrategy, fungibleStrategy] sums [some 0, some 7] =
        .ok [some 3, some 0] :=
  vectorWithout_vectorWith [fungibleStrategy, fungibleStrategy] [3, 0] [0, 7]
    (by
      intro strategy hmem
      simp only [List.mem_cons, List.mem_singleton, List.not_mem_nil, or_false, or_self]
        at hmem
      subst hmem
      exact ⟨rfl, rfl⟩)
    rfl rfl (by decide) (by decide) (by
      intro i h1 h2
      have hi : i = 0 ∨ i = 1 := by
        simp only [List.length_cons, List.length_nil] at h1
        omega
      rcases hi with rfl | rfl <;> simp [MAX_SAFE_INTEGER])

/-! ## `transpose` -/

theorem transpose_append_row {α : Type} (matrix : List (List α)) (row : List α) :
    transpose (matrix ++ [row]) =
      row.mapIdx fun i entry => (transpose matrix).getD i [] ++ [entry] := by
  simp [transpose, List.foldl_append]

theorem column_length {α : Type} (n : Nat) (matrix : List (List α))
    (hcols : ∀ row ∈ matrix, row.length = n) (j : Nat) (hj : j < n) :
    (matrix.filterMap fun row => row[j]?).length = matrix.length := by
  induction matrix with
  | nil => rfl
  | cons row rest ih =>
    have hrow : j < row.length := by
      rw [hcols row (List.mem_cons_self _ _)]
      exact hj
    have hrest : ∀ r ∈ rest, r.length = n := fun r hr => hcols r (List.mem_cons_of_mem _ hr)
    simp [List.filterMap_cons, List.getElem?_eq_getElem hrow, ih hrest]

theorem column_getElem? {α : Type} (n : Nat) (matrix : List (List α))
    (hcols : ∀ row ∈ matrix, row.length = n) (j : Nat) (hj : j < n) (i : Nat) :
    (matrix.filterMap fun row => row[j]?)[i]? = matrix[i]?.bind fun row => row[j]? := by
  induction matrix generalizing i with
  | nil => simp
  | cons row rest ih =>
    have hrow : j < row.length := by
      rw [hcols row (List.mem_cons_self _ _)]
      exact hj
    have hrest : ∀ r ∈ rest, r.length = n := fun r hr => hcols r (List.mem_cons_of_mem _ hr)
    simp only [List.filterMap_cons, List.getElem?_eq_getElem hrow]
    cases i with
    | zero => simp [List.getElem?_eq_getElem hrow]
    | succ k => simpa using ih hrest k

theorem transpose_columns {α : Type} (n : Nat) (matrix : List (List α))
    (hcols : ∀ row ∈ matrix, row.length = n) :
    (matrix ≠ [] → (transpose matrix).length = n) ∧
      ∀ j, j < n → (transpose matrix).getD j [] = matrix.filterMap fun row => row[j]? := by
  induction matrix using List.reverseRecOn with
  | nil =>
    refine ⟨fun h => absurd rfl h, ?_⟩
    intro j _
    simp [transpose]
  | append_singleton rest row ih =>
    have hrest : ∀ r ∈ rest, r.length = n := fun r hr =>
      hcols r (List.mem_append_left _ hr)
    have hrow : row.length = n := hcols row (by simp)
    obtain ⟨_, ihcol⟩ := ih hrest
    rw [transpose_append_row]
    refine ⟨fun _ => by simp [hrow], ?_⟩
    intro j hj
    have hjr : j < row.length := hrow ▸ hj
    rw [List.getD_eq_getElem?_getD, List.getElem?_mapIdx, List.getElem?_eq_getElem hjr]
    simp only [Option.map_some', Option.getD_some]
    rw [ihcol j hj, List.filterMap_append]
    simp [List.getElem?_eq_getElem hjr]

theorem transpose_spec {α : Type} (matrix : List (List α)) (m n : Nat) (hm : 0 < m)
    (hrows : matrix.length = m) (hcols : ∀ row ∈ matrix, row.length = n) :
    (transpose matrix).length = n ∧
    ∀ j (hj : j < (transpose matrix).length),
      (transpose matrix)[j].length = m ∧
      ∀ i (hi : i < (transpose matrix)[j].length) (hi2 : i < matrix.length)
        (hj2 : j < matrix[i].length), (transpose matrix)[j][i] = matrix[i][j] := by
  have hne : matrix ≠ [] := by
    intro h
    rw [h] at hrows
    simp at hrows
    omega
  obtain ⟨hlen, hcol⟩ := transpose_columns n matrix hcols
  refine ⟨hlen hne, ?_⟩
  intro j hj
  have hjn : j < n := by
    rw [← hlen hne]
    exact hj
  have hrow : (transpose matrix)[j] = matrix.filterMap fun row => row[j]? := by
    rw [← hcol j hjn, List.getD_eq_getElem?_getD, List.getElem?_eq_getElem hj]
    rfl
  refine ⟨by rw [hrow, column_length n matrix hcols j hjn, hrows], ?_⟩
  intro i hi hi2 hj2
  have h1 : (transpose matrix)[j][i]? = some matrix[i][j] := by
    rw [hrow, column_getElem? n matrix hcols j hjn i, List.getElem?_eq_getElem hi2]
    simp [List.getElem?_eq_getElem hj2]
  rw [List.getElem?_eq_getElem hi] at h1
  exact Option.some.inj h1

/-- C16: for a rectangular matrix with `m >= 1` rows and `n >= 1` columns,
`transpose` has `n` rows of `m` entries with `transpose(M)[j][i] = M[i][j]`, and
transposing twice gives the matrix back. -/
theorem transpose_entries {α : Type} (matrix : List (List α)) (m n : Nat) (hm : 0 < m)
    (hn : 0 < n) (hrows : matrix.length = m) (hcols : ∀ row ∈ matrix, row.length = n) :
    (transpose matrix).length = n ∧
    (∀ j (hj : j < (transpose matrix).length),
      (transpose matrix)[j].length = m ∧
      ∀ i (hi : i < (transpose matrix)[j].length) (hi2 : i < matrix.length)
        (hj2 : j < matrix[i].length), (transpose matrix)[j][i] = matrix[i][j]) ∧
    transpose (transpose matrix) = matrix := by
  obtain ⟨hlen, hentries⟩ := transpose_spec matrix m n hm hrows hcols
  refine ⟨hlen, hentries, ?_⟩
  have hcolsT : ∀ col ∈ transpose matrix, col.length = m := by
    intro col hcol
    obtain ⟨j, hj, rfl⟩ := List.getElem_of_mem hcol
    exact (hentries j hj).1
  obtain ⟨hlen2, hentries2⟩ := transpose_spec (transpose matrix) n m hn hlen hcolsT
  apply List.ext_getElem
  · rw [hlen2, hrows]
  · intro i h1 h2
    obtain ⟨hrowlen, hrow⟩ := hentries2 i h1
    have hmi : matrix[i].length = n := hcols _ (List.getElem_mem h2)
    apply List.ext_getElem
    · rw [hrowlen, hmi]
    · intro j h3 h4
      have hj : j < (transpose matrix).length := by
        rw [hlen, ← hmi]
        exact h4
      have hij : i < (transpose matrix)[j].length := by
        rw [(hentries j hj).1, ← hrows]
        exact h2
      rw [hrow j h3 hj hij, (hentries j hj).2 i hij h2 h4]

/-- C16 at a matrix of two rows and three columns. -/
theorem transpose_entries_witness :
    transpose [[1, 2, 3], [4, 5, 6]] = [[1, 4], [2, 5], [3, 6]] ∧
    transpose (transpose [[1, 2, 3], [4, 5, 6]]) = [[1, 2, 3], [4, 5, 6]] :=
  ⟨by decide,
    (transpose_entries [[1, 2, 3], [4, 5, 6]] 2 3 (by decide) (by decide) rfl
      (by decide)).2.2⟩

/-! ## The two-party swap -/

theorem transpose_two_by_two {α : Type} (x0 x1 y0 y1 : α) :
    transpose [[x0, x1], [y0, y1]] = [[x0, y0], [x1, y1]] := by
  rfl

theorem slotSum_pair_eq_ok_iff (x y r : Option Int) :
    slotSum fungibleStrategy [x, y] = .ok r ↔
      ∃ m n, x = some m ∧ y = some n ∧ IsQuantity m ∧ IsQuantity (m + n) ∧ r = some (m + n) := by
  have hrun : slotSum fungibleStrategy [x, y] =
      match basicFungibleTokenOperations.add (some 0) x with
      | .error e => .error e
      | .ok total => basicFungibleTokenOperations.add total y := by
    simp only [slotSum, List.foldlM, fungibleStrategy, bind, Except.bind, pure, Except.pure]
    cases basicFungibleTokenOperations.add (some 0) x with
    | error e => rfl
    | ok total =>
      dsimp only
      cases hsecond : basicFungibleTokenOperations.add total y <;> rfl
  rw [hrun]
  cases x with
  | none =>
    simp [basicFungibleTokenOperations.add, jsArith, agoricNat]
  | some m =>
    cases hfirst : basicFungibleTokenOperations.add (some 0) (some m) with
    | error e =>
      simp only [false_iff, reduceCtorEq]
      rintro ⟨m2, n, hm, _, hq, _, _⟩
      have hmm : m = m2 := Option.some.inj hm
      rw [← hmm] at hq
      have := agoricNat_of_quantity (0 + m) (by simpa using hq)
      simp only [basicFungibleTokenOperations.add, jsArith] at hfirst
      rw [this] at hfirst
      cases hfirst
    | ok total =>
      obtain ⟨k, hk, htotal, hkq⟩ := (agoricNat_eq_ok_iff _ total).1 hfirst
      simp only [jsArith, Option.some.injEq] at hk
      have hkm : k = m := by omega
      subst hkm htotal
      cases y with
      | none =>
        simp [basicFungibleTokenOperations.add, jsArith, agoricNat]
      | some n =>
        simp only [basicFungibleTokenOperations.add]
        rw [agoricNat_eq_ok_iff]
        simp only [jsArith, Option.some.injEq]
        constructor
        · rintro ⟨j, hj, hr, hjq⟩
          subst hj
          exact ⟨k, n, rfl, rfl, hkq, hjq, hr⟩
        · rintro ⟨m2, n2, hm, hn, _, hq, hr⟩
          subst hm hn
          exact ⟨k + n, rfl, hr, hq⟩

theorem slotSum_pair_of_quantities (m n : Int) (hm : IsQuantity m) (hsum : IsQuantity (m + n)) :
    slotSum fungibleStrategy [some m, some n] = .ok (some (m + n)) :=
  (slotSum_pair_eq_ok_iff _ _ _).2 ⟨m, n, rfl, rfl, hm, hsum, rfl⟩

theorem isConserved_swap_iff (a b : Int) (ha : IsQuantity a) (hb : IsQuantity b)
    (p0 p1 q0 q1 : Option Int) :
    isConserved [fungibleStrategy, fungibleStrategy] [[some a, some 0], [some 0, some b]]
        [[p0, p1], [q0, q1]] = .ok true ↔
      slotSum fungibleStrategy [p0, q0] = .ok (some a) ∧
        slotSum fungibleStrategy [p1, q1] = .ok (some b) := by
  have hE0 : slotSum fungibleStrategy [some a, some 0] = .ok (some a) := by
    simpa using slotSum_pair_of_quantities a 0 ha (by simpa using ha)
  have hE1 : slotSum fungibleStrategy [some 0, some b] = .ok (some b) := by
    simpa using slotSum_pair_of_quantities 0 b (by decide) (by simpa using hb)
  have hequals : ∀ x y : Option Int, fungibleStrategy.equals x y = decide (x = y) :=
    fun _ _ => rfl
  simp only [isConserved, every, everyFrom, transpose_two_by_two, List.getD_eq_getElem?_getD,
    List.getElem?_cons_zero, List.getElem?_cons_succ, Option.getD_some, hE0, hE1, hequals]
  cases h0 : slotSum fungibleStrategy [p0, q0] with
  | error e => simp
  | ok r0 =>
    by_cases hr0 : some a = r0
    · subst hr0
      cases h1 : slotSum fungibleStrategy [p1, q1] with
      | error e => simp
      | ok r1 =>
        by_cases hr1 : some b = r1
        · subst hr1
          simp
        · have hr1b : ¬ r1 = some b := fun h => hr1 h.symm
          simp [hr1, hr1b]
    · have hr0a : ¬ r0 = some a := fun h => hr0 h.symm
      simp [hr0, hr0a]

theorem deposit_swapOfferA (a b : Int) :
    deposit [fungibleStrategy, fungibleStrategy] (swapOfferA a b)
        [some { label := moola, quantity := some a }, none] =
      .ok { offer := swapOfferA a b, escrowed := [some a, some 0] } := by
  simp [deposit, every, everyFrom, depositMatchesRule, swapOfferA, amountsToQuantitiesArray,
    jsMap, mapFrom, fungibleStrategy]

theorem deposit_swapOfferB (a b : Int) :
    deposit [fungibleStrategy, fungibleStrategy] (swapOfferB a b)
        [none, some { label := simoleans, quantity := some b }] =
      .ok { offer := swapOfferB a b, escrowed := [some 0, some b] } := by
  simp [deposit, every, everyFrom, depositMatchesRule, swapOfferB, amountsToQuantitiesArray,
    jsMap, mapFrom, fungibleStrategy]

theorem intendedTransfers_swapOfferA (a b : Int) (hb : IsQuantity b) :
    intendedTransfers [fungibleStrategy, fungibleStrategy]
        { offer := swapOfferA a b, escrowed := [some a, some 0] } =
      .ok [some 0, some b] := by
  have h0 : basicFungibleTokenOperations.subtract (some a) (some a) = .ok (some 0) := by
    simpa [basicFungibleTokenOperations.subtract, jsArith] using
      agoricNat_of_quantity 0 (by decide)
  have h1 : basicFungibleTokenOperations.add (some 0) (some b) = .ok (some b) := by
    simpa [basicFungibleTokenOperations.add, jsArith] using agoricNat_of_quantity b hb
  simp [intendedTransfers, jsMap, mapFrom, swapOfferA, intendedQuantity, fungibleStrategy,
    h0, h1]

theorem intendedTransfers_swapOfferB (a b : Int) (ha : IsQuantity a) :
    intendedTransfers [fungibleStrategy, fungibleStrategy]
        { offer := swapOfferB a b, escrowed := [some 0, some b] } =
      .ok [some a, some 0] := by
  have h0 : basicFungibleTokenOperations.subtract (some b) (some b) = .ok (some 0) := by
    simpa [basicFungibleTokenOperations.subtract, jsArith] using
      agoricNat_of_quantity 0 (by decide)
  have h1 : basicFungibleTokenOperations.add (some 0) (some a) = .ok (some a) := by
    simpa [basicFungibleTokenOperations.add, jsArith] using agoricNat_of_quantity a ha
  simp [intendedTransfers, jsMap, mapFrom, swapOfferB, intendedQuantity, fungibleStrategy,
    h0, h1]

/-- The model of settlement does check conservation: when B offers 5 simoleans
where A wants 7, the intended transfers do not balance and nothing is settled;
a seat on its own is not settled either. -/
theorem attemptSettlement_unmatched :
    attemptSettlement [fungibleStrategy, fungibleStrategy]
      [{ offer := swapOfferA 3 7, escrowed := [some 3, some 0] },
       { offer := swapOfferB 3 5, escrowed := [some 0, some 5] }] =
      .error "ConservationViolationError" ∧
    attemptSettlement [fungibleStrategy, fungibleStrategy]
      [{ offer := swapOfferA 3 7, escrowed := [some 3, some 0] }] =
      .error "ConservationViolationError" := by
  constructor <;> rfl

/-- C14: party A escrows `[offerExactly a, wantExactly b]` with a payment of `a`,
party B the mirrored offer with a payment of `b` (`a`, `b` valid fungible
quantities).  Both deposits are accepted, with escrowed quantities `[a, 0]` and
`[0, b]`; settlement of the two seats succeeds and pays A `[0, b]` and B
`[a, 0]`, which satisfies both parties' `wantExactly` rules; and in each slot
the payouts sum to what was escrowed. -/
theorem swap_payoffs (a b : Int) (ha : IsQuantity a) (hb : IsQuantity b) :
    ∃ seatA seatB : Seat (Option Int),
      deposit [fungibleStrategy, fungibleStrategy] (swapOfferA a b)
        [some { label := moola, quantity := some a }, none] = .ok seatA ∧
      deposit [fungibleStrategy, fungibleStrategy] (swapOfferB a b)
        [none, some { label := simoleans, quantity := some b }] = .ok seatB ∧
      seatA.escrowed = [some a, some 0] ∧ seatB.escrowed = [some 0, some b] ∧
      attemptSettlement [fungibleStrategy, fungibleStrategy] [seatA, seatB] =
        .ok [[some 0, some b], [some a, some 0]] ∧
      isSatisfied [fungibleStrategy, fungibleStrategy] seatA [some 0, some b] ∧
      isSatisfied [fungibleStrategy, fungibleStrategy] seatB [some a, some 0] ∧
      slotSum fungibleStrategy [some 0, some a] = .ok (some a) ∧
      slotSum fungibleStrategy [some a, some 0] = .ok (some a) ∧
      slotSum fungibleStrategy [some b, some 0] = .ok (some b) ∧
      slotSum fungibleStrategy [some 0, some b] = .ok (some b) := by
  have hzero : IsQuantity 0 := by decide
  have s0a : slotSum fungibleStrategy [some 0, some a] = .ok (some a) := by
    simpa using slotSum_pair_of_quantities 0 a hzero (by simpa using ha)
  have sa0 : slotSum fungibleStrategy [some a, some 0] = .ok (some a) := by
    simpa using slotSum_pair_of_quantities a 0 ha (by simpa using ha)
  have sb0 : slotSum fungibleStrategy [some b, some 0] = .ok (some b) := by
    simpa using slotSum_pair_of_quantities b 0 hb (by simpa using hb)
  have s0b : slotSum fungibleStrategy [some 0, some b] = .ok (some b) := by
    simpa using slotSum_pair_of_quantities 0 b hzero (by simpa using hb)
  refine ⟨{ offer := swapOfferA a b, escrowed := [some a, some 0] },
    { offer := swapOfferB a b, escrowed := [some 0, some b] },
    deposit_swapOfferA a b, deposit_swapOfferB a b, rfl, rfl, ?_, ?_, ?_, s0a, sa0, sb0, s0b⟩
  · have hcons := (isConserved_swap_iff a b ha hb (some 0) (some b) (some a) (some 0)).2
      ⟨s0a, sb0⟩
    simp only [attemptSettlement, jsMap, mapFrom, intendedTransfers_swapOfferA a b hb,
      intendedTransfers_swapOfferB a b ha, List.map_cons, List.map_nil, hcons]
  · intro i ho hp hs hrule
    have hi : i = 0 ∨ i = 1 := by
      simp only [List.length_cons, List.length_nil] at hp
      omega
    rcases hi with rfl | rfl
    · simp [swapOfferA] at hrule
    · simp [swapOfferA, fungibleStrategy]
  · intro i ho hp hs hrule
    have hi : i = 0 ∨ i = 1 := by
      simp only [List.length_cons, List.length_nil] at hp
      omega
    rcases hi with rfl | rfl
    · simp [swapOfferB, fungibleStrategy]
    · simp [swapOfferB] at hrule

/-- C14 at the quantities of the test: 3 moola against 7 simoleans. -/
theorem swap_payoffs_witness :
    attemptSettlement [fungibleStrategy, fungibleStrategy]
      [{ offer := swapOfferA 3 7, escrowed := [some 3, some 0] },
       { offer := swapOfferB 3 7, escrowed := [some 0, some 7] }] =
      .ok [[some 0, some 7], [some 3, some 0]] := by
  obtain ⟨seatA, seatB, hA, hB, _, _, hsettled, _⟩ := swap_payoffs 3 7 (by decide) (by decide)
  rw [deposit_swapOfferA] at hA
  rw [deposit_swapOfferB] at hB
  cases hA
  cases hB
  exact hsettled

end Ertp
